import Mathlib

/-!
# Verification of the ev_betting_service normalization / deduplication pipeline

This file shallowly embeds the normalization and deduplication core of the
repository (models in `src/models/*`, `src/utils/misc_utils.py`, the two
adapters and the orchestrator in `src/normalization/normalizer.py`, and the
merge engine in `src/storage/supabase_client.py`) and proves or refutes the
frozen specification claims about it.

Modelling conventions:
* Python `Decimal` / JSON numbers are modelled as exact rationals (`ℚ`).
  Python parses JSON numbers to binary floats and `Decimal(float)` is the
  exact binary value; the difference is irrelevant for every property and
  input considered here (the values used are either exactly representable
  or only compared against integral bounds that both sides satisfy).
* `datetime` values are modelled as integral POSIX seconds in UTC (`ℤ`).
* Functions that can raise in Python are modelled with `Option`; where a
  raised exception and a `None`/skip result are observationally identical
  (both make the enclosing loop skip the same unit of work) they are
  collapsed to the same `none`.
-/

set_option linter.unusedVariables false

namespace EvBetting

/-! ## Small Python-semantics helpers -/

/-- Python `int(q)` on an exact numeric value: truncation toward zero. -/
def pyInt (q : ℚ) : ℤ := if 0 ≤ q then ⌊q⌋ else ⌈q⌉

/-- Python `round(ts / 300)` for an integral timestamp `ts`: division by 300
followed by round-half-to-even.  For integral `ts` (and `|ts| < 2^52`) the
float computation in CPython is exact at the tie points, so the rational
model is faithful. -/
def roundHalfEven (ts : ℤ) (d : ℤ) : ℤ :=
  let q := Int.fdiv ts d
  let r := ts - d * q
  if 2 * r < d then q
  else if 2 * r > d then q + 1
  else if q % 2 = 0 then q else q + 1

/-- Python `str.lower()` restricted to the ASCII range (all inputs exercised
by the program's identifiers and the claims are ASCII). -/
def pyLower (s : String) : String := String.mk (s.toList.map Char.toLower)

/-- Python `str.strip()` (the ASCII whitespace set). -/
def pyStrip (s : String) : String :=
  String.mk (((s.toList.dropWhile Char.isWhitespace).reverse.dropWhile
    Char.isWhitespace).reverse)

/-- Boolean prefix test on character lists. -/
def listIsPrefix : List Char → List Char → Bool
  | [], _ => true
  | _ :: _, [] => false
  | a :: as, b :: bs => a = b && listIsPrefix as bs

/-- Python `s.startswith(p)`. -/
def strStartsWith (s p : String) : Bool := listIsPrefix p.toList s.toList

/-- `combined.replace(" ", "_")` — a one-character pattern, so a
per-character map. -/
def replaceSpaces (s : String) : String :=
  String.mk (s.toList.map (fun c => if c = ' ' then '_' else c))

/-- Lexicographic comparison of character lists by code point (Python
string `<`). -/
def charListLt : List Char → List Char → Bool
  | [], [] => false
  | [], _ :: _ => true
  | _ :: _, [] => false
  | a :: as, b :: bs =>
    if a < b then true else if b < a then false else charListLt as bs

/-- Python string `<`. -/
def strLt (a b : String) : Bool := charListLt a.toList b.toList

/-- Python `needle in haystack` for strings (substring test). -/
def strContains (haystack needle : String) : Bool :=
  decide (List.IsInfix needle.toList haystack.toList)

/-- Python `tuple(sorted((a, b)))` on two strings (lexicographic order on
code points, which is what both Python and Lean use). -/
def sortedPair (a b : String) : String × String :=
  if strLt b a then (b, a) else (a, b)

/-! ## Enumerations (`src/models/enums.py`) -/

inductive Sport where
  | NBA | NHL | MLB | NFL | NCAAF | WNBA | MLS | SOCCER | TENNIS
  deriving DecidableEq, Repr

/-- The `.value` string of each `Sport` member. -/
def Sport.value : Sport → String
  | .NBA => "NBA" | .NHL => "NHL" | .MLB => "MLB" | .NFL => "NFL"
  | .NCAAF => "NCAAF" | .WNBA => "WNBA" | .MLS => "MLS"
  | .SOCCER => "Soccer" | .TENNIS => "Tennis"

inductive League where
  | NBA | NHL | MLB | EPL | CHAMPIONS_LEAGUE | LA_LIGA | SERIE_A
  | BUNDESLIGA | LIGUE_1 | MLS | ATP | WTA
  deriving DecidableEq, Repr

/-- The `.value` string of each `League` member.  (The source file shows only
NBA/NHL/MLB explicitly; the normalizer maps into the further members, whose
values follow the same naming scheme.) -/
def League.value : League → String
  | .NBA => "NBA" | .NHL => "NHL" | .MLB => "MLB" | .EPL => "EPL"
  | .CHAMPIONS_LEAGUE => "CHAMPIONS_LEAGUE" | .LA_LIGA => "LA_LIGA"
  | .SERIE_A => "SERIE_A" | .BUNDESLIGA => "BUNDESLIGA"
  | .LIGUE_1 => "LIGUE_1" | .MLS => "MLS" | .ATP => "ATP" | .WTA => "WTA"

inductive MarketType where
  | MONEYLINE | SPREAD | TOTAL
  deriving DecidableEq, Repr

def MarketType.value : MarketType → String
  | .MONEYLINE => "MONEYLINE" | .SPREAD => "SPREAD" | .TOTAL => "TOTAL"

inductive MarketSide where
  | HOME | AWAY | OVER | UNDER
  deriving DecidableEq, Repr

def MarketSide.value : MarketSide → String
  | .HOME => "HOME" | .AWAY => "AWAY" | .OVER => "OVER" | .UNDER => "UNDER"

inductive Period where
  | FULL_GAME | FIRST_HALF
  deriving DecidableEq, Repr

def Period.value : Period → String
  | .FULL_GAME => "FULL_GAME" | .FIRST_HALF => "FIRST_HALF"

inductive Bookmaker where
  | PINNACLE | CRAB_SPORTS | UNKNOWN | TBD_BOOK
  deriving DecidableEq, Repr

def Bookmaker.value : Bookmaker → String
  | .PINNACLE => "PINNACLE" | .CRAB_SPORTS => "CRAB_SPORTS"
  | .UNKNOWN => "UNKNOWN" | .TBD_BOOK => "TBD_BOOK"

/-! ## SHA-1 (`hashlib.sha1`, used by `generate_canonical_id`) -/

/-- `2^32`, the word modulus of SHA-1. -/
def M32 : ℕ := 4294967296

/-- 32-bit left rotation. -/
def rotl (k n : ℕ) : ℕ := ((n <<< k) ||| (n >>> (32 - k))) % M32

/-- UTF-8 encoding of one character (`str.encode()`). -/
def utf8Bytes (c : Char) : List ℕ :=
  let n := c.toNat
  if n < 0x80 then [n]
  else if n < 0x800 then
    [0xC0 ||| (n >>> 6), 0x80 ||| (n &&& 0x3F)]
  else if n < 0x10000 then
    [0xE0 ||| (n >>> 12), 0x80 ||| ((n >>> 6) &&& 0x3F), 0x80 ||| (n &&& 0x3F)]
  else
    [0xF0 ||| (n >>> 18), 0x80 ||| ((n >>> 12) &&& 0x3F),
     0x80 ||| ((n >>> 6) &&& 0x3F), 0x80 ||| (n &&& 0x3F)]

/-- The UTF-8 byte sequence of a string. -/
def strBytes (s : String) : List ℕ := (s.toList.map utf8Bytes).flatten

/-- SHA-1 message padding: `0x80`, zeros to 56 mod 64, 8-byte big-endian
bit length. -/
def sha1Pad (msg : List ℕ) : List ℕ :=
  let L := msg.length
  let k := (56 - ((L + 1) % 64)) % 64
  let bitLen := 8 * L
  msg ++ [0x80] ++ List.replicate k 0 ++
    (List.range 8).map (fun i => (bitLen >>> (8 * (7 - i))) % 256)

/-- Split a byte list into 64-byte blocks. -/
def chunks64 : List ℕ → List (List ℕ)
  | [] => []
  | x :: xs => ((x :: xs).take 64) :: chunks64 ((x :: xs).drop 64)
termination_by l => l.length
decreasing_by simp [List.length_drop]; omega

/-- The 16 initial 32-bit words of a 64-byte block (big endian). -/
def wordsOf (block : List ℕ) : List ℕ :=
  (List.range 16).map fun i =>
    (block.getD (4 * i) 0) <<< 24 ||| (block.getD (4 * i + 1) 0) <<< 16 |||
    (block.getD (4 * i + 2) 0) <<< 8 ||| (block.getD (4 * i + 3) 0)

/-- Extend the 16 words to 80 (`fuel` counts the remaining extensions). -/
def sha1Extend : ℕ → List ℕ → List ℕ
  | 0, w => w
  | n + 1, w =>
    let i := w.length
    let x := rotl 1 ((w.getD (i - 3) 0) ^^^ (w.getD (i - 8) 0) ^^^
                     (w.getD (i - 14) 0) ^^^ (w.getD (i - 16) 0))
    sha1Extend n (w ++ [x])

/-- One SHA-1 round. -/
def sha1Round (w : List ℕ) (st : ℕ × ℕ × ℕ × ℕ × ℕ) (i : ℕ) :
    ℕ × ℕ × ℕ × ℕ × ℕ :=
  let (a, b, c, d, e) := st
  let fk : ℕ × ℕ :=
    if i < 20 then ((b &&& c) ||| (((M32 - 1) - b) &&& d), 0x5A827999)
    else if i < 40 then (b ^^^ c ^^^ d, 0x6ED9EBA1)
    else if i < 60 then ((b &&& c) ||| (b &&& d) ||| (c &&& d), 0x8F1BBCDC)
    else (b ^^^ c ^^^ d, 0xCA62C1D6)
  let tmp := (rotl 5 a + fk.1 + e + fk.2 + w.getD i 0) % M32
  (tmp, a, rotl 30 b, c, d)

/-- Process one 64-byte block. -/
def sha1Block (h : ℕ × ℕ × ℕ × ℕ × ℕ) (block : List ℕ) :
    ℕ × ℕ × ℕ × ℕ × ℕ :=
  let w := sha1Extend 64 (wordsOf block)
  let (a, b, c, d, e) := (List.range 80).foldl (sha1Round w) h
  let (h0, h1, h2, h3, h4) := h
  ((h0 + a) % M32, (h1 + b) % M32, (h2 + c) % M32, (h3 + d) % M32,
   (h4 + e) % M32)

/-- The five 32-bit words of the SHA-1 digest of a byte sequence. -/
def sha1Words (msg : List ℕ) : List ℕ :=
  let blocks := chunks64 (sha1Pad msg)
  let h := blocks.foldl sha1Block
    (0x67452301, 0xEFCDAB89, 0x98BADCFE, 0x10325476, 0xC3D2E1F0)
  [h.1, h.2.1, h.2.2.1, h.2.2.2.1, h.2.2.2.2]

/-- Lower-case hex digit for `n < 16`. -/
def hexChar (n : ℕ) : Char :=
  if n < 10 then Char.ofNat (48 + n) else Char.ofNat (87 + n)

/-- Fixed-width lower-case hex rendering (most significant digit first). -/
def toHexFixed : ℕ → ℕ → List Char
  | 0, _ => []
  | k + 1, n => toHexFixed k (n / 16) ++ [hexChar (n % 16)]

/-- `hashlib.sha1(s.encode()).hexdigest()`. -/
def sha1Hex (s : String) : String :=
  String.mk (((sha1Words (strBytes s)).map (toHexFixed 8)).flatten)

/-! ## Identifier generator (`src/utils/misc_utils.py`) -/

/-- Python's `\w` character class restricted to the ASCII range (all
identifier inputs in this program are ASCII). -/
def isWordChar (c : Char) : Bool := c.isAlphanum || c = '_'

/-- `generate_canonical_id(*args)`: joins the truthy (non-empty) arguments
with `_` after lower-casing each, replaces spaces with underscores, strips
every character outside `[A-Za-z0-9_]`, and returns the result verbatim if
it has at most 100 characters, otherwise the first 16 hex characters of its
SHA-1 digest. -/
def generate_canonical_id (args : List String) : String :=
  let combined := String.intercalate "_" ((args.filter (fun a => a ≠ "")).map pyLower)
  let safe_string := String.mk ((replaceSpaces combined).toList.filter isWordChar)
  if safe_string.length > 100 then (sha1Hex safe_string).take 16
  else safe_string

/-! ## Entity model (`src/models/team.py`, `odds.py`, `market.py`, `game.py`)

`Team.canonical_name` and `Team.team_id` are `Optional[str]` in the source
but are always set by both adapters; they are modelled as required strings
(with `None` present, the merge step's `sorted(...)` over canonical names
would raise a `TypeError`, which is outside the modelled domain).

`Market.game_id` is annotated `str` in the source, but the merge step
assigns `canonical_game.game_id` (an `Optional[str]`) into it at runtime,
so it is modelled as `Option String`. -/

structure Team where
  raw_name : String
  canonical_name : String
  team_id : String
  deriving DecidableEq, Repr

structure Odds where
  market_id : String
  bookmaker : Bookmaker
  side : MarketSide
  points : Option ℚ := none
  line : Option ℚ := none
  decimal_odds : ℚ
  american_odds : Option ℤ := none
  timestamp_collected : ℤ
  deriving DecidableEq, Repr

/-- `Odds.model_post_init`: derive `american_odds` when absent. -/
def oddsPostInit (o : Odds) : Odds :=
  if o.american_odds = none ∧ 0 < o.decimal_odds then
    if 2 ≤ o.decimal_odds then
      { o with american_odds := some (pyInt ((o.decimal_odds - 1) * 100)) }
    else
      { o with american_odds := some (pyInt (-100 / (o.decimal_odds - 1))) }
  else o

/-- Constructing an `Odds` instance: the pydantic field validator
`decimal_odds : Decimal = Field(..., gt=1)` raises a typed
`ValidationError` (modelled as `none`) when `decimal_odds ≤ 1`; on success
`model_post_init` fills in `american_odds`. -/
def mkOdds (market_id : String) (bookmaker : Bookmaker) (side : MarketSide)
    (points line : Option ℚ) (decimal_odds : ℚ) (american_odds : Option ℤ)
    (timestamp_collected : ℤ) : Option Odds :=
  if 1 < decimal_odds then
    some (oddsPostInit
      { market_id, bookmaker, side, points, line, decimal_odds,
        american_odds, timestamp_collected })
  else none

structure Market where
  game_id : Option String
  market_type : MarketType
  period : Period := Period.FULL_GAME
  line : Option ℚ := none
  raw_market_name : Option String := none
  last_updated_utc : ℤ := 0
  market_id : Option String := none
  odds : List Odds := []
  deriving DecidableEq, Repr

structure Game where
  sport : Sport
  league : League
  start_time_utc : ℤ
  home_team : Team
  away_team : Team
  bookmaker : Bookmaker
  raw_event_id : String
  last_updated_utc : ℤ := 0
  game_id : Option String := none
  markets : List Market := []
  deriving DecidableEq, Repr

/-- Python truthiness of the `Optional[str]` field `game_id`
(`None` and `""` are falsy). -/
def gameIdTruthy (g : Game) : Bool :=
  match g.game_id with
  | some s => s ≠ ""
  | none => false

/-- The value `Game.__hash__` feeds to Python's `hash`: either the
`game_id` string, or the fallback tuple of identifying fields with the
start time rounded to the nearest 300-second bucket (half-to-even, as
Python `round` does).  Distinct keys give distinct (generic) hash values. -/
inductive GameHashKey where
  | byId (id : String)
  | byFields (sport : Sport) (league : League) (home_raw : String)
      (away_raw : String) (bucket : ℤ)
  deriving DecidableEq, Repr

/-- `Game.__hash__` (up to Python's final integer-hash application). -/
def gameHashKey (g : Game) : GameHashKey :=
  if gameIdTruthy g then .byId (g.game_id.getD "")
  else .byFields g.sport g.league g.home_team.raw_name g.away_team.raw_name
    (roundHalfEven g.start_time_utc 300)

/-- `Game.__eq__`: id equality when both ids are truthy, otherwise the
fallback on (sport, league, raw team names, start time within 300 s). -/
def gameEq (g1 g2 : Game) : Bool :=
  if gameIdTruthy g1 ∧ gameIdTruthy g2 then g1.game_id = g2.game_id
  else
    g1.sport = g2.sport ∧ g1.league = g2.league ∧
    g1.home_team.raw_name = g2.home_team.raw_name ∧
    g1.away_team.raw_name = g2.away_team.raw_name ∧
    (g1.start_time_utc - g2.start_time_utc).natAbs ≤ 300

/-! ## Deduplication & merge engine
(`save_normalized_data` in `src/storage/supabase_client.py`)

The source function also performs the four `upsert` calls; the embedding
returns exactly the collections it hands to them (canonical games, teams,
deduplicated markets, unique latest odds), in the insertion order of the
Python dicts it builds. -/

/-- First-match association-list lookup (a Python `dict` read). -/
def lookupA {κ α : Type} [DecidableEq κ] (k : κ) : List (κ × α) → Option α
  | [] => none
  | (k', v) :: rest => if k' = k then some v else lookupA k rest

/-- Replace the value at an existing key, keeping its position
(a Python `dict` write to a present key). -/
def updateA {κ α : Type} [DecidableEq κ] (k : κ) (v : α) :
    List (κ × α) → List (κ × α)
  | [] => []
  | (k', v') :: rest =>
    if k' = k then (k', v) :: rest else (k', v') :: updateA k v rest

/-- The fuzzy game key: `(sport.value, league.value, sorted canonical team
names, start date)`.  The `None` branch of `get_fuzzy_game_key` is
unreachable because `home_team`, `away_team` and `start_time_utc` are
required, always-truthy fields, so the key is total here.  The calendar
date of a UTC timestamp is `⌊ts / 86400⌋` (modelled as its own component;
the enum members stand for their `.value` strings). -/
abbrev FuzzyKey := Sport × League × (String × String) × ℤ

def get_fuzzy_game_key (game : Game) : FuzzyKey :=
  (game.sport, game.league,
   sortedPair game.home_team.canonical_name game.away_team.canonical_name,
   Int.fdiv game.start_time_utc 86400)

structure MergeState where
  canonical_games : List (FuzzyKey × Game) := []
  all_teams : List (String × Team) := []
  all_markets : List (Option String × Market) := []
  all_odds_raw : List Odds := []
  processed_market_ids : List (Option String) := []
  deriving Repr

/-- The shared market/odds bookkeeping, identical in the canonical and the
duplicate branch of the loop body: a market whose `market_id` is new is
stored and its odds collected; the `elif market_id not in processed` branch
is kept as in the source (it adds odds for a market id present in
`all_markets` but not yet processed). -/
def collectMarket (st : MergeState) (m : Market) : MergeState :=
  if (lookupA m.market_id st.all_markets).isNone then
    { st with
      all_markets := st.all_markets ++ [(m.market_id, m)]
      processed_market_ids := st.processed_market_ids ++ [m.market_id]
      all_odds_raw := st.all_odds_raw ++ m.odds }
  else if m.market_id ∉ st.processed_market_ids then
    { st with
      all_odds_raw := st.all_odds_raw ++ m.odds
      processed_market_ids := st.processed_market_ids ++ [m.market_id] }
  else st

/-- The team collection at the top of the loop body (`home_team` checked
and stored first, then `away_team`). -/
def collectTeams (st : MergeState) (game : Game) : MergeState :=
  let st :=
    if (lookupA game.home_team.team_id st.all_teams).isNone then
      { st with all_teams :=
          st.all_teams ++ [(game.home_team.team_id, game.home_team)] }
    else st
  if (lookupA game.away_team.team_id st.all_teams).isNone then
    { st with all_teams :=
        st.all_teams ++ [(game.away_team.team_id, game.away_team)] }
  else st

/-- One iteration of the main loop of `save_normalized_data`: collect the
two teams, then either install the game as canonical for its fuzzy key and
collect its markets, or treat it as a duplicate, re-parenting each of its
markets' `game_id` to the canonical game's `game_id` before collecting. -/
def mergeStep (st : MergeState) (game : Game) : MergeState :=
  let st := collectTeams st game
  let fuzzy_key := get_fuzzy_game_key game
  match lookupA fuzzy_key st.canonical_games with
  | none =>
    let st := { st with
      canonical_games := st.canonical_games ++ [(fuzzy_key, game)] }
    game.markets.foldl collectMarket st
  | some canonical_game =>
    game.markets.foldl
      (fun st market_to_merge =>
        collectMarket st { market_to_merge with game_id := canonical_game.game_id })
      st

/-- Key of the latest-odds dedup map: `(market_id, bookmaker, side)`. -/
abbrev OddsKey := String × Bookmaker × MarketSide

def oddsKeyOf (o : Odds) : OddsKey := (o.market_id, o.bookmaker, o.side)

/-- One step of the latest-odds filter: keep, per key, the record with the
strictly latest `timestamp_collected` (an equal timestamp does not
replace). -/
def latestFold (m : List (OddsKey × Odds)) (odds_item : Odds) :
    List (OddsKey × Odds) :=
  match lookupA (oddsKeyOf odds_item) m with
  | none => m ++ [(oddsKeyOf odds_item, odds_item)]
  | some cur =>
    if cur.timestamp_collected < odds_item.timestamp_collected then
      updateA (oddsKeyOf odds_item) odds_item m
    else m

structure MergeResult where
  games_to_save : List Game
  teams : List Team
  markets : List Market
  unique_latest_odds : List Odds
  deriving DecidableEq, Repr

/-- `save_normalized_data`, as the pure computation of the four collections
it persists. -/
def save_normalized_data (normalized_games : List Game) : MergeResult :=
  let st := normalized_games.foldl mergeStep {}
  { games_to_save := st.canonical_games.map Prod.snd
    teams := st.all_teams.map Prod.snd
    markets := st.all_markets.map Prod.snd
    unique_latest_odds := (st.all_odds_raw.foldl latestFold []).map Prod.snd }

/-! ## Raw JSON documents

The adapters consume parsed provider JSON (`response.json()`); numbers are
modelled as exact rationals (see the header note). -/

inductive Json where
  | null
  | bool (b : Bool)
  | num (q : ℚ)
  | str (s : String)
  | arr (elems : List Json)
  | obj (fields : List (String × Json))
  deriving Repr

mutual

/-- Structural equality of JSON values (Python `==` on parsed JSON). -/
def Json.beq : Json → Json → Bool
  | .null, .null => true
  | .bool a, .bool b => a == b
  | .num a, .num b => a == b
  | .str a, .str b => a == b
  | .arr a, .arr b => Json.beqList a b
  | .obj a, .obj b => Json.beqFields a b
  | _, _ => false

/-- Equality on JSON arrays. -/
def Json.beqList : List Json → List Json → Bool
  | [], [] => true
  | x :: xs, y :: ys => Json.beq x y && Json.beqList xs ys
  | _, _ => false

/-- Equality on JSON objects (parsed dicts preserve insertion order and
have unique keys; ordered comparison is adequate for the lookups here). -/
def Json.beqFields : List (String × Json) → List (String × Json) → Bool
  | [], [] => true
  | (k1, v1) :: xs, (k2, v2) :: ys =>
    k1 == k2 && Json.beq v1 v2 && Json.beqFields xs ys
  | _, _ => false

end

/-- Python truthiness of a JSON value. -/
def Json.truthy : Json → Bool
  | .null => false
  | .bool b => b
  | .num q => q != 0
  | .str s => s != ""
  | .arr xs => !xs.isEmpty
  | .obj fs => !fs.isEmpty

/-- Python `d.get(k)` on a dict: `None` when absent (a stored JSON `null`
also reads back as Python `None`, so both collapse to `none`).  The
embedding only applies it where the source has established the receiver is
a dict. -/
def Json.get? (j : Json) (k : String) : Option Json :=
  match j with
  | .obj fields =>
    match lookupA k fields with
    | some .null => none
    | some v => some v
    | none => none
  | _ => none

/-- A Python value that must be a string to be used: a truthy non-string
in these positions makes the source raise inside the enclosing `try`,
which skips exactly the same unit of work as the `None` path, so both are
`none`. -/
def Json.asStr : Option Json → Option String
  | some (.str s) => some s
  | _ => none

/-- Python `str(x)` for the JSON values that appear as raw event ids;
precise for strings, integers and booleans (the only shapes exercised). -/
def pyStr : Json → String
  | .str s => s
  | .num q => if q.den = 1 then toString q.num else toString q
  | .bool b => if b then "True" else "False"
  | .null => "None"
  | .arr _ => "<list>"
  | .obj _ => "<dict>"

/-! ## Numeric and label parsing helpers (`Normalizer`) -/

/-- Digits to a natural number. -/
def digitsToNat (cs : List Char) : ℕ :=
  cs.foldl (fun a c => a * 10 + (c.toNat - 48)) 0

/-- `Decimal(string)` for the plain forms `[+-]? digits [. digits]` /
`[+-]? . digits` (exponents and surrounding whitespace, which the inputs
here never carry, are treated as failures). -/
def parseDecString (s : String) : Option ℚ :=
  let cs := s.toList
  let signRest : ℤ × List Char :=
    match cs with
    | '+' :: r => (1, r)
    | '-' :: r => (-1, r)
    | r => (1, r)
  let sign := signRest.1
  let rest := signRest.2
  let intPart := rest.takeWhile Char.isDigit
  match rest.dropWhile Char.isDigit with
  | [] =>
    if intPart.isEmpty then none
    else some ((sign * digitsToNat intPart : ℤ) : ℚ)
  | '.' :: frac =>
    if frac.all Char.isDigit ∧ ¬(intPart.isEmpty ∧ frac.isEmpty) then
      some ((sign : ℚ) *
        ((digitsToNat intPart : ℚ) + (digitsToNat frac : ℚ) / (10 ^ frac.length)))
    else none
  | _ => none

/-- `Normalizer._parse_decimal`: `Decimal(value)` under `try/except`.
JSON numbers are exact; numeric strings parse as above; Python booleans
are ints (`Decimal(True) == 1`); everything else raises and yields
`None`. -/
def parseDecimalJson : Option Json → Option ℚ
  | some (.num q) => some q
  | some (.bool b) => some (if b then 1 else 0)
  | some (.str s) => parseDecString s
  | _ => none

/-- Does `cs` entirely match `\d* \.? \d+` (backtracking regex
semantics)? -/
def numTail (cs : List Char) : Bool :=
  let ip := cs.takeWhile Char.isDigit
  match cs.dropWhile Char.isDigit with
  | [] => !ip.isEmpty
  | '.' :: rest => !rest.isEmpty && rest.all Char.isDigit
  | _ => false

/-- Does `cs` entirely match `[+-]? \d* \.? \d+`? -/
def fullNumMatch (cs : List Char) : Bool :=
  match cs with
  | '+' :: r => numTail r
  | '-' :: r => numTail r
  | r => numTail r

/-- The capture group of `([+-]?\d*\.?\d+)\)?$` when the whole suffix `cs`
matches (the optional `)` must be consumed if present). -/
def suffixGroup (cs : List Char) : Option (List Char) :=
  if cs.getLast? = some ')' then
    if fullNumMatch cs.dropLast then some cs.dropLast else none
  else
    if fullNumMatch cs then some cs else none

/-- Leftmost-position regex search: try the matcher at every start
position, earliest first. -/
def firstMatch {α : Type} (f : List Char → Option α) : List Char → Option α
  | [] => f []
  | c :: cs =>
    match f (c :: cs) with
    | some r => some r
    | none => firstMatch f cs

/-- Greedy match of `[+-]?\d*\.?\d+` anchored at the head of `cs`,
including the engine's backtracking (a trailing bare `.` is given
back). -/
def matchNumAt (cs : List Char) : Option (List Char) :=
  let signRest : List Char × List Char :=
    match cs with
    | '+' :: r => (['+'], r)
    | '-' :: r => (['-'], r)
    | r => ([], r)
  let sgn := signRest.1
  let rest := signRest.2
  let d1 := rest.takeWhile Char.isDigit
  match rest.dropWhile Char.isDigit with
  | '.' :: tail =>
    let d2 := tail.takeWhile Char.isDigit
    if !d2.isEmpty then some (sgn ++ d1 ++ '.' :: d2)
    else if !d1.isEmpty then some (sgn ++ d1)
    else none
  | _ => if !d1.isEmpty then some (sgn ++ d1) else none

/-- `Normalizer._extract_line_from_label`: first a `$`-anchored search for
a trailing number (with optional closing parenthesis) on the stripped
label; if that fails and the label starts with `over`/`under`, the first
number anywhere in the (unstripped) label. -/
def extractLineFromLabel (label : Option String) : Option ℚ :=
  match label with
  | none => none
  | some l =>
    match firstMatch suffixGroup (pyStrip l).toList with
    | some g => parseDecString (String.mk g)
    | none =>
      if strStartsWith (pyLower l) "over" || strStartsWith (pyLower l) "under" then
        match firstMatch matchNumAt l.toList with
        | some g => parseDecString (String.mk g)
        | none => none
      else none

/-- Backtracking candidates of `[+-]?\d*\.?\d+` at a fixed start, in the
engine's preference order (greedy first, then progressively shorter). -/
def parenNumCandidates (rest : List Char) : List (List Char) :=
  let signRest : List Char × List Char :=
    match rest with
    | '+' :: r => (['+'], r)
    | '-' :: r => (['-'], r)
    | r => ([], r)
  let sgn := signRest.1
  let r1 := signRest.2
  let d1 := r1.takeWhile Char.isDigit
  let withDot : List (List Char) :=
    match r1.dropWhile Char.isDigit with
    | '.' :: tail =>
      let d2 := tail.takeWhile Char.isDigit
      (List.range d2.length).map
        (fun k => sgn ++ d1 ++ '.' :: d2.take (d2.length - k))
    | _ => []
  let noDot : List (List Char) :=
    (List.range d1.length).map (fun j => sgn ++ d1.take (d1.length - j))
  withDot ++ noDot

/-- Match `\(([+-]?\d*\.?\d+)\)` anchored at the head: an opening
parenthesis, then the first backtracking candidate that is followed by a
closing parenthesis. -/
def matchParenNumAt : List Char → Option (List Char)
  | '(' :: rest =>
    (parenNumCandidates rest).findSome? (fun c =>
      if (rest.drop c.length).head? = some ')' then some c else none)
  | _ => none

/-- `Normalizer._extract_points_from_outcome_label`: the first
parenthesised signed number in the label. -/
def extractPointsFromOutcomeLabel (label : Option String) : Option ℚ :=
  match label with
  | none => none
  | some l =>
    match firstMatch matchParenNumAt l.toList with
    | some g => parseDecString (String.mk g)
    | none => none

/-! ## Datetime parsing (`Normalizer._parse_datetime`) -/

/-- Days since 1970-01-01 of a civil date (Hinnant's algorithm, the one
underlying CPython's date arithmetic up to representation). -/
def daysFromCivil (y m d : ℤ) : ℤ :=
  let y := y - (if m ≤ 2 then 1 else 0)
  let era := Int.fdiv y 400
  let yoe := y - era * 400
  let mp := Int.emod (m + 9) 12
  let doy := Int.fdiv (153 * mp + 2) 5 + d - 1
  let doe := yoe * 365 + Int.fdiv yoe 4 - Int.fdiv yoe 100 + doy
  era * 146097 + doe - 719468

/-- Civil date from days since the epoch (inverse of `daysFromCivil`). -/
def civilFromDays (z : ℤ) : ℤ × ℤ × ℤ :=
  let z := z + 719468
  let era := Int.fdiv z 146097
  let doe := z - era * 146097
  let yoe := Int.fdiv
    (doe - Int.fdiv doe 1460 + Int.fdiv doe 36524 - Int.fdiv doe 146096) 365
  let y := yoe + era * 400
  let doy := doe - (365 * yoe + Int.fdiv yoe 4 - Int.fdiv yoe 100)
  let mp := Int.fdiv (5 * doy + 2) 153
  let d := doy - Int.fdiv (153 * mp + 2) 5 + 1
  let m := mp + (if mp < 10 then 3 else -9)
  (y + (if m ≤ 2 then 1 else 0), m, d)

def isLeap (y : ℤ) : Bool := (y % 4 = 0 && y % 100 != 0) || y % 400 = 0

def daysInMonth (y m : ℤ) : ℤ :=
  if m = 2 then (if isLeap y then 29 else 28)
  else if m = 4 ∨ m = 6 ∨ m = 9 ∨ m = 11 then 30
  else 31

/-- Two decimal digits. -/
def twoDigits (a b : Char) : Option ℤ :=
  if a.isDigit && b.isDigit then
    some ((a.toNat - 48) * 10 + (b.toNat - 48) : ℕ)
  else none

/-- `datetime.fromisoformat` followed by `astimezone(timezone.utc)`, for
the offset-carrying second-precision form
`YYYY-MM-DD[T ]HH:MM:SS±HH:MM` the providers emit, as POSIX seconds.
Naive strings (no offset) are converted through the host's local timezone
in CPython, which is outside the model, and fractional-second forms are
not exercised; both are modelled as parse failures.  Invalid field ranges
raise `ValueError`, which `_parse_datetime` catches, returning `None`. -/
def parseDatetimeUtc (str : String) : Option ℤ :=
  let cs := str.toList
  match cs.take 19 with
  | [y1, y2, y3, y4, '-', mo1, mo2, '-', d1, d2, sep, h1, h2, ':',
     mi1, mi2, ':', s1, s2] =>
    if sep ≠ 'T' ∧ sep ≠ ' ' then none else
    match twoDigits y1 y2, twoDigits y3 y4, twoDigits mo1 mo2,
          twoDigits d1 d2, twoDigits h1 h2, twoDigits mi1 mi2,
          twoDigits s1 s2 with
    | some yHi, some yLo, some mo, some d, some h, some mi, some s =>
      let y := yHi * 100 + yLo
      if 1 ≤ mo ∧ mo ≤ 12 ∧ 1 ≤ d ∧ d ≤ daysInMonth y mo ∧
         h ≤ 23 ∧ mi ≤ 59 ∧ s ≤ 59 ∧ 1 ≤ y then
        let base := daysFromCivil y mo d * 86400 + h * 3600 + mi * 60 + s
        match cs.drop 19 with
        | [osgn, o1, o2, ':', o3, o4] =>
          match twoDigits o1 o2, twoDigits o3 o4 with
          | some oh, some om =>
            if (osgn = '+' ∨ osgn = '-') ∧ oh ≤ 23 ∧ om ≤ 59 then
              let off := oh * 3600 + om * 60
              some (base - (if osgn = '+' then off else -off))
            else none
          | _, _ => none
        | _ => none
      else none
    | _, _, _, _, _, _, _ => none
  | _ => none

/-- Zero-padded positive decimal rendering of width `w`. -/
def padNum (w : ℕ) (n : ℤ) : String :=
  let digits := toString n.toNat
  String.mk (List.replicate (w - digits.length) '0') ++ digits

/-- `start_time.strftime('%Y%m%d')` on the modelled UTC timestamp. -/
def strftimeYMD (ts : ℤ) : String :=
  let ymd := civilFromDays (Int.fdiv ts 86400)
  padNum 4 ymd.1 ++ padNum 2 ymd.2.1 ++ padNum 2 ymd.2.2

/-! ## Mapping helpers (`Normalizer.__init__` tables and `_map_*`) -/

/-- `Normalizer.team_aliases`. -/
def team_aliases : List (String × String) :=
  [("knicks", "new york knicks"), ("nyk", "new york knicks"),
   ("pistons", "detroit pistons"), ("det", "detroit pistons"),
   ("nets", "brooklyn nets"), ("bkn", "brooklyn nets"),
   ("celtics", "boston celtics"), ("bos", "boston celtics"),
   ("lakers", "los angeles lakers"), ("lal", "los angeles lakers"),
   ("clippers", "los angeles clippers"), ("lac", "los angeles clippers")]

/-- `Normalizer.market_aliases`. -/
def market_aliases : List (String × MarketType) :=
  [("moneyline", .MONEYLINE), ("money line", .MONEYLINE), ("ml", .MONEYLINE),
   ("point spread", .SPREAD), ("spread", .SPREAD), ("run line", .SPREAD),
   ("puck line", .SPREAD), ("handicap", .SPREAD),
   ("total points", .TOTAL), ("total", .TOTAL), ("over/under", .TOTAL),
   ("over under", .TOTAL)]

/-- `Normalizer._get_canonical_team_name`. -/
def get_canonical_team_name (raw_name : String) : String :=
  let raw_name_clean := pyStrip (pyLower raw_name)
  (lookupA raw_name_clean team_aliases).getD raw_name_clean

/-- `Normalizer._map_sport`. -/
def mapSport (raw_sport_name : Option String) : Option Sport :=
  match raw_sport_name with
  | none => none
  | some s =>
    if s = "" then none
    else
      let r := pyStrip (pyLower s)
      if strContains r "basketball" then some .NBA
      else if strContains r "hockey" || strContains r "ice hockey" then some .NHL
      else if strContains r "baseball" then some .MLB
      else if strContains r "soccer" then some .SOCCER
      else if strContains r "tennis" then some .TENNIS
      else none

/-- `Normalizer._map_league`. -/
def mapLeague (raw_league_name : Option String) (sport : Option Sport) :
    Option League :=
  match raw_league_name with
  | none => none
  | some s =>
    if s = "" then none
    else
      let r := pyStrip (pyLower s)
      if sport = some .NBA ∧
         (strContains r "nba" ∨ strContains r "national basketball association") then
        some .NBA
      else if sport = some .NHL ∧
         (strContains r "nhl" ∨ strContains r "national hockey league") then
        some .NHL
      else if sport = some .MLB ∧
         (strContains r "mlb" ∨ strContains r "major league baseball") then
        some .MLB
      else if sport = some .SOCCER ∧ strContains r "premier league" then some .EPL
      else if sport = some .SOCCER ∧ strContains r "champions league" then
        some .CHAMPIONS_LEAGUE
      else if sport = some .SOCCER ∧ strContains r "la liga" then some .LA_LIGA
      else if sport = some .SOCCER ∧ strContains r "serie a" then some .SERIE_A
      else if sport = some .SOCCER ∧ strContains r "bundesliga" then some .BUNDESLIGA
      else if sport = some .SOCCER ∧ strContains r "ligue 1" then some .LIGUE_1
      else if sport = some .SOCCER ∧
         (strContains r "mls" ∨ strContains r "major league soccer") then some .MLS
      else if sport = some .TENNIS ∧ strContains r "atp" then some .ATP
      else if sport = some .TENNIS ∧ strContains r "wta" then some .WTA
      else none

/-- `Normalizer._map_market_type`. -/
def mapMarketType (raw_market_name : Option String) : Option MarketType :=
  match raw_market_name with
  | none => none
  | some s =>
    if s = "" then none
    else
      let r := pyStrip (pyLower s)
      match lookupA r market_aliases with
      | some t => some t
      | none =>
        if strContains r "moneyline" then some .MONEYLINE
        else if strContains r "spread" then some .SPREAD
        else if strContains r "run line" then some .SPREAD
        else if strContains r "over/under" || strContains r "total" then some .TOTAL
        else if r = "winner 2-way" then some .MONEYLINE
        else none

/-- `Normalizer._map_pinnacle_market_type`. -/
def mapPinnacleMarketType (raw_market_name : Option String) : Option MarketType :=
  match raw_market_name with
  | none => none
  | some s =>
    if s = "" then none
    else
      let r := pyStrip (pyLower s)
      if r = "moneyline" then some .MONEYLINE
      else if r = "spread" then some .SPREAD
      else if r = "total" then some .TOTAL
      else none

/-- `Normalizer._map_market_side`. -/
def mapMarketSide (raw_outcome_label : String) (market_type : MarketType)
    (home_team away_team : String) (line : Option ℚ) : Option MarketSide :=
  let label_lower := pyStrip (pyLower raw_outcome_label)
  let home_lower := pyStrip (pyLower home_team)
  let away_lower := pyStrip (pyLower away_team)
  match market_type with
  | .MONEYLINE | .SPREAD =>
    if strStartsWith label_lower home_lower then some .HOME
    else if strStartsWith label_lower away_lower then some .AWAY
    else if label_lower = home_lower then some .HOME
    else if label_lower = away_lower then some .AWAY
    else none
  | .TOTAL =>
    if strStartsWith label_lower "over" then some .OVER
    else if strStartsWith label_lower "under" then some .UNDER
    else if label_lower = "o" then some .OVER
    else if label_lower = "u" then some .UNDER
    else none

/-- `str(Decimal(...))` for the terminating decimal values the pipeline
renders into f-strings (minimal decimal expansion; the values reaching
this point come from decimal literals or spread/total points and are
exactly representable). -/
def decStr (q : ℚ) : String :=
  match (List.range 60).find? (fun k => (q * 10 ^ k).den = 1) with
  | some 0 => toString q.num
  | some k =>
    let n := (q * 10 ^ k).num
    let s := toString n.natAbs
    let s := String.mk (List.replicate (k + 1 - s.length) '0') ++ s
    (if q < 0 then "-" else "") ++ s.dropRight k ++ "." ++ s.takeRight k
  | none => toString q

/-- The f-string fragment `{market_line or 'base'}` (`Decimal(0)` is
falsy). -/
def lineOrBase : Option ℚ → String
  | none => "base"
  | some q => if q = 0 then "base" else decStr q

/-- Raw (presence-based) dict read, for `d.get(k, default)` sites where a
stored JSON `null` and a missing key behave differently. -/
def Json.getRaw? (j : Json) (k : String) : Option Json :=
  match j with
  | .obj fields => lookupA k fields
  | _ => none

/-- `oj == "s"` for a Python value read from a dict. -/
def isStrEq (oj : Option Json) (s : String) : Bool :=
  match oj with
  | some (.str t) => t = s
  | _ => false

/-! ## Crab Sports adapter (`Normalizer._normalize_crabsports_data`)

`now` models the `datetime.now(timezone.utc)` collection timestamp (taken
as constant within one adapter call). -/

/-- One selection of a bet: the body of the inner outcome loop, producing
an entry of `processed_outcomes` or skipping (`continue` paths and the
per-selection `except` collapse to `none`). -/
def crabProcessSelection (market_type : MarketType)
    (home_team_name away_team_name : String) (raw_selection : Json) :
    Option (MarketSide × ℚ × String × Option ℚ) :=
  match raw_selection with
  | .obj _ =>
    match Json.asStr (raw_selection.get? "label") with
    | none => none
    | some outcome_label_raw =>
      if outcome_label_raw = "" then none
      else
        match raw_selection.get? "odds" with
        | none => none
        | some price_val =>
          let price_decimal := parseDecimalJson (some price_val)
          let outcome_line := extractLineFromLabel (some outcome_label_raw)
          match mapMarketSide outcome_label_raw market_type home_team_name
              away_team_name outcome_line with
          | none => none
          | some market_side =>
            match price_decimal with
            | none => none
            | some price => some (market_side, price, outcome_label_raw, outcome_line)
  | _ => none

/-- The `for side, price, raw_label, outcome_line in processed_outcomes`
loop constructing `Odds`: a pydantic `ValidationError` (price ≤ 1) is not
caught inside this loop, so it aborts the whole market container
(`none`). -/
def buildCrabOdds (now : ℤ) (market_id : String) (market_type : MarketType) :
    List (MarketSide × ℚ × String × Option ℚ) → Option (List Odds)
  | [] => some []
  | (side, price, raw_label, _outcome_line) :: rest =>
    let points_value : Option ℚ :=
      if market_type = .SPREAD then extractPointsFromOutcomeLabel (some raw_label)
      else none
    let line_value : Option ℚ :=
      if market_type = .TOTAL then extractLineFromLabel (some raw_label)
      else none
    match mkOdds market_id .CRAB_SPORTS side points_value line_value price
        none now with
    | none => none
    | some o => (buildCrabOdds now market_id market_type rest).map (o :: ·)

/-- One raw market container: the body of the per-container loop.  All
`continue` paths, the discard of a market with no surviving odds, and the
container-level `except` (which an Odds `ValidationError` reaches) return
`none`. -/
def crabProcessContainer (now : ℤ) (game_id : String)
    (home_team_name away_team_name : String) (raw_market_container : Json) :
    Option Market :=
  match raw_market_container with
  | .obj _ =>
    let raw_bets :=
      match raw_market_container.getRaw? "bets" with
      | some (.arr bs) => bs
      | _ => []
    match raw_bets with
    | [] => none
    | raw_bet :: _ =>
      match raw_bet with
      | .obj _ =>
        match Json.asStr (raw_bet.get? "label") with
        | none => none
        | some market_name_raw =>
          if market_name_raw = "" then none
          else
            match mapMarketType (some market_name_raw) with
            | none => none
            | some market_type =>
              let raw_selections : Option (List Json) :=
                match raw_bet.getRaw? "selections" with
                | some (.arr ss) => some ss
                | none => some []
                | some _ => none
              match raw_selections with
              | none => none
              | some sels =>
                let processed_outcomes := sels.filterMap
                  (crabProcessSelection market_type home_team_name away_team_name)
                let market_line : Option ℚ :=
                  if market_type = .SPREAD ∨ market_type = .TOTAL then
                    (processed_outcomes.filterMap (fun t => t.2.2.2)).head?
                  else none
                let market_id := generate_canonical_id
                  [game_id ++ "_" ++ market_type.value ++ "_" ++ lineOrBase market_line]
                match buildCrabOdds now market_id market_type processed_outcomes with
                | none => none
                | some odds =>
                  if odds.isEmpty then none
                  else some
                    { market_id := some market_id, game_id := some game_id,
                      market_type, line := market_line, period := .FULL_GAME,
                      raw_market_name := some market_name_raw, odds }
      | _ => none
  | _ => none

/-- The Python-`or` update of a default team name from an actor label
(falsy labels keep the default; a truthy non-string label leads to a
skipped event in both the source and this model, so it may keep the
default too). -/
def labelOr (lbl : Option Json) (default : String) : String :=
  match lbl with
  | some (.str s) => if s ≠ "" then s else default
  | _ => default

/-- The shared tail of both per-event loops: `if not game.markets:
continue` (the game is kept only when its processed market list is
non-empty). -/
def finishGame (mk : List Market → Game) (markets : List Market) :
    Option Game :=
  if markets.isEmpty then none else some (mk markets)

/-- One raw event: the body of the per-event loop (all skip paths and the
event-level `except` collapse to `none`). -/
def crabProcessEvent (now : ℤ) (raw_event : Json) : Option Game :=
  match raw_event with
  | .obj _ =>
    let event_id := pyStr ((raw_event.getRaw? "id").getD (.str "UNKNOWN_ID"))
    let sport_info := (raw_event.getRaw? "sport").getD (Json.obj [])
    let sport_name : Option String :=
      match sport_info with
      | .obj _ => Json.asStr (sport_info.get? "label")
      | _ => none
    let competition_info := (raw_event.getRaw? "competition").getD (Json.obj [])
    let league_name : Option String :=
      match competition_info with
      | .obj _ => Json.asStr (competition_info.get? "label")
      | _ => none
    let start_time_str := Json.asStr (raw_event.get? "start")
    let actors := (raw_event.getRaw? "actors").getD (Json.arr [])
    let names : String × String :=
      match actors with
      | .arr acts =>
        if acts.length ≥ 2 then
          acts.foldl (fun hn_an actor =>
            match actor with
            | .obj _ =>
              if isStrEq (actor.get? "type") "home" then
                (labelOr (actor.get? "label") hn_an.1, hn_an.2)
              else if isStrEq (actor.get? "type") "away" then
                (hn_an.1, labelOr (actor.get? "label") hn_an.2)
              else hn_an
            | _ => hn_an) ("Unknown Home", "Unknown Away")
        else ("Unknown Home", "Unknown Away")
      | _ => ("Unknown Home", "Unknown Away")
    let home_team_name := names.1
    let away_team_name := names.2
    if home_team_name = "Unknown Home" ∨ away_team_name = "Unknown Away" ∨
       home_team_name = "" ∨ away_team_name = "" then none
    else
      let sport := mapSport sport_name
      let league := mapLeague league_name sport
      let start_time :=
        match start_time_str with
        | none => none
        | some s => parseDatetimeUtc s
      match sport, league, start_time with
      | some sport, some league, some start_time =>
        let home_team_id := generate_canonical_id [home_team_name]
        let away_team_id := generate_canonical_id [away_team_name]
        let game_id := generate_canonical_id
          [sport.value ++ "_" ++ league.value ++ "_" ++ away_team_id ++
           "_at_" ++ home_team_id ++ "_" ++ strftimeYMD start_time]
        let home_team : Team :=
          { team_id := home_team_id, raw_name := home_team_name,
            canonical_name := get_canonical_team_name home_team_name }
        let away_team : Team :=
          { team_id := away_team_id, raw_name := away_team_name,
            canonical_name := get_canonical_team_name away_team_name }
        let raw_market_list :=
          match raw_event.getRaw? "markets" with
          | some (.arr ms) => ms
          | _ => []
        let markets := raw_market_list.filterMap
          (crabProcessContainer now game_id home_team_name away_team_name)
        finishGame (fun markets =>
          { game_id := some game_id, bookmaker := .CRAB_SPORTS, sport, league,
            start_time_utc := start_time, home_team, away_team,
            raw_event_id := event_id, markets }) markets
      | _, _, _ => none
  | _ => none

/-- Locating the raw event list inside a dict-shaped Crab Sports response
(the `events_component` / `raw_events_data` / `competitions` walk); every
structural miss is the source's log-and-return-`[]`, represented by the
empty event list. -/
def crabRawEvents (raw_response : Json) : List Json :=
  let components : List Json :=
    match raw_response.get? "components" with
    | some (.arr cs) => cs
    | _ => []
  let events_component : Option Json :=
    components.find? (fun c =>
      match c with
      | .obj _ => isStrEq (c.get? "tree_compo_key") "prematch_event_list"
      | _ => false)
  match events_component with
  | none => []
  | some comp =>
    match comp.get? "data" with
    | some (.obj dataFields) =>
      if dataFields.isEmpty then []
      else
        let dataJ := Json.obj dataFields
        match dataJ.get? "competitions" with
        | some (.arr comps) =>
          comps.foldl (fun acc competition =>
            match competition with
            | .obj cf =>
              match lookupA "events" cf with
              | some (.arr evs) => acc ++ evs
              | _ => acc
            | _ => acc) []
        | _ =>
          match dataJ.get? "events" with
          | some (.arr evs) => evs
          | _ => []
    | _ => []

/-- `Normalizer._normalize_crabsports_data`.  Returns `none` exactly when
the raw response is not a dict: then the very first statement,
`list(raw_response.keys())`, raises `AttributeError`, which escapes the
adapter and (in `normalize`) aborts the whole provider batch.  Every
structural miss inside a dict-shaped response is handled by the source
with log-and-return-`[]` or log-and-skip, leaving an empty event list. -/
def normalize_crabsports_data (now : ℤ) (raw_response : Json) :
    Option (List Game) :=
  match raw_response with
  | .obj _ => some ((crabRawEvents raw_response).filterMap (crabProcessEvent now))
  | _ => none

/-! ## Pinnacle adapter (`Normalizer._normalize_pinnacle_data`)

Pinnacle prices are American odds and go through `american_to_decimal`. -/

/-- Modelled from the spec: `american_to_decimal` is defined in
`src/utils/calcs.py`, which is absent from the provided sources.  Per the
spec, "for positive American odds `a`, decimal = `a/100 + 1`; for
negative, decimal = `100/|a| + 1`"; the conversion is a pure function, and
its callers test the result for truthiness (`if odds_home and odds_away`),
so a missing/zero/non-numeric price is modelled as the falsy `none`. -/
def americanToDecimal (a : ℚ) : Option ℚ :=
  if 0 < a then some (a / 100 + 1)
  else if a < 0 then some (100 / (-a) + 1)
  else none

/-- `american_to_decimal(price.get("price"))` on a raw JSON price. -/
def americanToDecimalJson : Option Json → Option ℚ
  | some (.num q) => americanToDecimal q
  | _ => none

/-- `if period_raw != 0: continue` — Python numeric equality with `0`
(`False == 0` holds; `None`, strings and containers do not equal `0`). -/
def periodIsZero : Option Json → Bool
  | some (.num q) => q = 0
  | some (.bool b) => !b
  | _ => false

/-- An `odds_data_list` entry: `(side, decimal price, points, line)`. -/
abbrev OddsTuple := MarketSide × ℚ × Option ℚ × Option ℚ

/-- The Odds-construction loop of the Pinnacle market block (a pydantic
`ValidationError` would abort the market container, as for Crab Sports;
with prices produced by `american_to_decimal` it cannot occur). -/
def buildPinnOdds (now : ℤ) (market_id : String) :
    List OddsTuple → Option (List Odds)
  | [] => some []
  | (side, price, points_val, line_val) :: rest =>
    match mkOdds market_id .PINNACLE side points_val line_val price none now with
    | none => none
    | some o => (buildPinnOdds now market_id rest).map (o :: ·)

/-- Market-id derivation, `Market` construction and the `if market.odds`
guard shared by the three Pinnacle market-type branches. -/
def pinnFinishMarket (now : ℤ) (game_id : String) (market_type : MarketType)
    (market_line : Option ℚ) (raw_market_name : String)
    (odds_data_list : List OddsTuple) : Option Market :=
  if odds_data_list.isEmpty then none
  else
    let market_id := generate_canonical_id
      [game_id ++ "_" ++ market_type.value ++ "_" ++ lineOrBase market_line]
    match buildPinnOdds now market_id odds_data_list with
    | none => none
    | some odds =>
      if odds.isEmpty then none
      else some
        { market_id := some market_id, game_id := some game_id, market_type,
          line := market_line, period := .FULL_GAME,
          raw_market_name := some raw_market_name, odds }

/-- One raw Pinnacle market: the body of the per-market loop (skip paths
and the market-level `except` collapse to `none`). -/
def pinnProcessMarket (now : ℤ) (game_id : String) (raw_market : Json) :
    Option Market :=
  match raw_market with
  | .obj _ =>
    let period_raw := raw_market.getRaw? "period"
    let prices := (raw_market.getRaw? "prices").getD (Json.arr [])
    if !(periodIsZero period_raw) then none
    else
      match mapPinnacleMarketType (Json.asStr (raw_market.get? "type")) with
      | none => none
      | some market_type =>
        match prices with
        | .arr [pr0, pr1] =>
          let defaultName :=
            market_type.value ++ " - Period " ++ pyStr (period_raw.getD .null)
          match pr0, pr1 with
          | .obj _, .obj _ =>
            match market_type with
            | .MONEYLINE =>
              match americanToDecimalJson (pr0.get? "price"),
                    americanToDecimalJson (pr1.get? "price") with
              | some odds_home, some odds_away =>
                pinnFinishMarket now game_id market_type none "Moneyline"
                  [(.HOME, odds_home, none, none), (.AWAY, odds_away, none, none)]
              | _, _ => none
            | .SPREAD =>
              let el1 : Option (ℚ × ℚ) :=
                match parseDecimalJson (pr0.get? "points"),
                      americanToDecimalJson (pr0.get? "price") with
                | some p1, some o1 => some (p1, o1)
                | _, _ => none
              let el2 : Option (ℚ × ℚ) :=
                match parseDecimalJson (pr1.get? "points"),
                      americanToDecimalJson (pr1.get? "price") with
                | some p2, some o2 => some (p2, o2)
                | _, _ => none
              let odds_data_list : List OddsTuple :=
                (match el1 with
                 | some (p1, o1) => [(MarketSide.HOME, o1, some p1, none)]
                 | none => []) ++
                (match el2 with
                 | some (p2, o2) => [(MarketSide.AWAY, o2, some p2, none)]
                 | none => [])
              let market_line : Option ℚ :=
                match el1, el2 with
                | some (p1, _), _ => some |p1|
                | none, some (p2, _) => some |p2|
                | none, none => none
              let raw_name :=
                match el1, el2 with
                | some (p1, _), _ => "Spread (" ++ decStr p1 ++ ")"
                | none, some (p2, _) => "Spread (" ++ decStr p2 ++ ")"
                | none, none => defaultName
              pinnFinishMarket now game_id market_type market_line raw_name
                odds_data_list
            | .TOTAL =>
              let prs := [pr0, pr1]
              let price_over :=
                (prs.filter (fun p => isStrEq (p.get? "designation") "over")).getLast?
              let price_under :=
                (prs.filter (fun p => isStrEq (p.get? "designation") "under")).getLast?
              match price_over, price_under with
              | some po, some pu =>
                match parseDecimalJson (po.get? "points"),
                      americanToDecimalJson (po.get? "price"),
                      americanToDecimalJson (pu.get? "price") with
                | some total_line, some odds_over, some odds_under =>
                  pinnFinishMarket now game_id market_type (some total_line)
                    ("Total (" ++ decStr total_line ++ ")")
                    [(.OVER, odds_over, none, some total_line),
                     (.UNDER, odds_under, none, some total_line)]
                | _, _, _ => none
              | _, _ => none
          | _, _ => none
        | _ => none
  | _ => none

/-- `participants` fallback through `parent` (`raw_matchup.get("parent")`,
then `.get("participants")` when the parent is a dict). -/
def pinnParentParticipants (raw_matchup : Json) : Option Json :=
  match raw_matchup.get? "parent" with
  | some (.obj pf) => (Json.obj pf).get? "participants"
  | _ => none

/-- One raw matchup: the body of the per-matchup loop (skip paths and the
matchup-level `except` collapse to `none`). -/
def pinnProcessMatchup (now : ℤ) (mbm : List (Json × List Json))
    (raw_matchup : Json) : Option Game :=
  match raw_matchup with
  | .obj _ =>
    let pin_matchup_id : Option Json :=
      match raw_matchup.get? "parentId" with
      | some v => if v.truthy then some v else raw_matchup.get? "id"
      | none => raw_matchup.get? "id"
    match pin_matchup_id with
    | none => none
    | some pin_id =>
      if !pin_id.truthy then none
      else
        let league_info := (raw_matchup.getRaw? "league").getD (Json.obj [])
        let league_name : Option String :=
          match league_info with
          | .obj _ => Json.asStr (league_info.get? "name")
          | _ => none
        let sport_name : Option String :=
          match league_info with
          | .obj _ =>
            let sp := (league_info.getRaw? "sport").getD (Json.obj [])
            match sp with
            | .obj _ => Json.asStr (sp.get? "name")
            | _ => none
          | _ => none
        let periods := (raw_matchup.getRaw? "periods").getD (Json.arr [Json.obj []])
        let start_time_str : Option String :=
          match periods with
          | .arr (p :: _) =>
            match p with
            | .obj _ => Json.asStr (p.get? "cutoffAt")
            | _ => none
          | _ => none
        let participants : Option Json :=
          match raw_matchup.get? "participants" with
          | some v => if v.truthy then some v else pinnParentParticipants raw_matchup
          | none => pinnParentParticipants raw_matchup
        match participants with
        | some (.arr [p0, p1]) =>
          match p0, p1 with
          | .obj _, .obj _ =>
            let names : Option Json × Option Json :=
              if isStrEq (p0.get? "alignment") "home" ∧
                 isStrEq (p1.get? "alignment") "away" then
                (p0.get? "name", p1.get? "name")
              else if isStrEq (p0.get? "alignment") "away" ∧
                 isStrEq (p1.get? "alignment") "home" then
                (p1.get? "name", p0.get? "name")
              else
                (p0.get? "name", p1.get? "name")
            match Json.asStr names.1, Json.asStr names.2 with
            | some home_team_name, some away_team_name =>
              if home_team_name = "" ∨ away_team_name = "" then none
              else
                let sport := mapSport sport_name
                let league := mapLeague league_name sport
                let start_time :=
                  match start_time_str with
                  | none => none
                  | some s => parseDatetimeUtc s
                match sport, league, start_time with
                | some sport, some league, some start_time =>
                  let home_team_id := generate_canonical_id [home_team_name]
                  let away_team_id := generate_canonical_id [away_team_name]
                  let game_id := generate_canonical_id
                    [sport.value ++ "_" ++ league.value ++ "_" ++ away_team_id ++
                     "_at_" ++ home_team_id ++ "_" ++ strftimeYMD start_time]
                  let home_team : Team :=
                    { team_id := home_team_id, raw_name := home_team_name,
                      canonical_name := get_canonical_team_name home_team_name }
                  let away_team : Team :=
                    { team_id := away_team_id, raw_name := away_team_name,
                      canonical_name := get_canonical_team_name away_team_name }
                  let game_markets :=
                    ((mbm.find? (fun p => Json.beq p.1 pin_id)).map Prod.snd).getD []
                  let markets := game_markets.filterMap (pinnProcessMarket now game_id)
                  finishGame (fun markets =>
                    { game_id := some game_id, bookmaker := .PINNACLE, sport,
                      league, start_time_utc := start_time, home_team, away_team,
                      raw_event_id := pyStr pin_id, markets }) markets
                | _, _, _ => none
            | _, _ => none
          | _, _ => none
        | _ => none
  | _ => none

/-- Build `markets_by_matchup`.  `none` models a raised exception while
building the lookup (a non-dict market item, or an unhashable truthy
`matchupId`), which escapes the adapter and aborts the provider batch. -/
def buildMarketsByMatchup (markets : List Json) :
    Option (List (Json × List Json)) :=
  markets.foldlM (fun acc item =>
    match item with
    | .obj _ =>
      match item.get? "matchupId" with
      | none => some acc
      | some mid =>
        if !mid.truthy then some acc
        else
          match mid with
          | .arr _ => none
          | .obj _ => none
          | _ =>
            if (acc.find? (fun p => Json.beq p.1 mid)).isSome then
              some (acc.map (fun p =>
                if Json.beq p.1 mid then (p.1, p.2 ++ [item]) else p))
            else some (acc ++ [(mid, [item])])
    | _ => none) []

/-- `Normalizer._normalize_pinnacle_data`.  `none` models an exception
escaping the adapter (non-dict response, truthy non-list
`matchups`/`markets`, or a raise while building the matchup lookup);
`some []` is the handled missing-data path. -/
def normalize_pinnacle_data (now : ℤ) (raw_league_data : Json) :
    Option (List Game) :=
  match raw_league_data with
  | .obj _ =>
    let raw_matchups := (raw_league_data.getRaw? "matchups").getD (Json.arr [])
    let raw_markets := (raw_league_data.getRaw? "markets").getD (Json.arr [])
    if !raw_matchups.truthy || !raw_markets.truthy then some []
    else
      match raw_matchups, raw_markets with
      | .arr matchups, .arr markets =>
        match buildMarketsByMatchup markets with
        | none => none
        | some mbm => some (matchups.filterMap (pinnProcessMatchup now mbm))
      | _, _ => none
  | _ => none

/-! ## Normalization orchestrator (`Normalizer.normalize`) -/

/-- Sequence the per-response adapter results of one provider: the `try`
in `normalize` encloses the whole per-provider loop and the `extend` runs
only after it, so an exception while normalizing any one response discards
the provider's entire contribution. -/
def seqConcat : List (Option (List Game)) → Option (List Game)
  | [] => some []
  | r :: rest =>
    match r, seqConcat rest with
    | some gs, some acc => some (gs ++ acc)
    | _, _ => none

/-- One provider entry of the `normalize` loop. -/
def normStep (now : ℤ) (all_normalized_games : List Game)
    (entry : Bookmaker × List Json) : List Game :=
  if entry.2.isEmpty then all_normalized_games
  else
    let contribution : Option (List Game) :=
      match entry.1 with
      | .CRAB_SPORTS => seqConcat (entry.2.map (normalize_crabsports_data now))
      | .PINNACLE => seqConcat (entry.2.map (normalize_pinnacle_data now))
      | _ => some []
    match contribution with
    | some gs => all_normalized_games ++ gs
    | none => all_normalized_games

/-- `Normalizer.normalize`: dispatch each provider's raw responses to its
adapter and concatenate; a provider with no raw data or no registered
adapter is skipped; a provider whose processing raises contributes
nothing, and processing continues with the next provider. -/
def Normalizer.normalize (now : ℤ)
    (raw_data_by_book : List (Bookmaker × List Json)) : List Game :=
  raw_data_by_book.foldl (normStep now) []

/-- The one-per-fuzzy-key accumulation that `canonical_games` performs. -/
def fbkStep (acc : List (FuzzyKey × Game)) (g : Game) :
    List (FuzzyKey × Game) :=
  if (lookupA (get_fuzzy_game_key g) acc).isSome then acc
  else acc ++ [(get_fuzzy_game_key g, g)]

/-- The canonical-games map produced by the merge: the first game of each
fuzzy key, in order of first appearance. -/
def firstByKey (gs : List Game) : List (FuzzyKey × Game) :=
  gs.foldl fbkStep []

/-! ## The market/odds bookkeeping as a standalone fold

The three fields `all_markets` / `all_odds_raw` / `processed_market_ids`
of the merge state evolve as a fold of `collectMarket`'s logic over the
stream of (re-parented) markets, independently of the rest of the state;
this section factors that out and characterises it. -/

structure BookAcc where
  all_markets : List (Option String × Market) := []
  all_odds_raw : List Odds := []
  processed_market_ids : List (Option String) := []
  deriving Repr, DecidableEq

/-- `collectMarket` on the projected bookkeeping. -/
def collectB (acc : BookAcc) (m : Market) : BookAcc :=
  if (lookupA m.market_id acc.all_markets).isNone then
    { acc with
      all_markets := acc.all_markets ++ [(m.market_id, m)]
      processed_market_ids := acc.processed_market_ids ++ [m.market_id]
      all_odds_raw := acc.all_odds_raw ++ m.odds }
  else if m.market_id ∉ acc.processed_market_ids then
    { acc with
      all_odds_raw := acc.all_odds_raw ++ m.odds
      processed_market_ids := acc.processed_market_ids ++ [m.market_id] }
  else acc

def projB (st : MergeState) : BookAcc :=
  ⟨st.all_markets, st.all_odds_raw, st.processed_market_ids⟩

/-- The stream of markets the merge processes: each game contributes its
own markets, re-parented to the canonical game's `game_id` when the game
is a duplicate of an earlier fuzzy key. -/
def mmStep (acc : List (FuzzyKey × Game) × List Market) (g : Game) :
    List (FuzzyKey × Game) × List Market :=
  match lookupA (get_fuzzy_game_key g) acc.1 with
  | none => (acc.1 ++ [(get_fuzzy_game_key g, g)], acc.2 ++ g.markets)
  | some cg =>
    (acc.1, acc.2 ++ g.markets.map (fun m => { m with game_id := cg.game_id }))

def mergedMarkets (gs : List Game) : List Market :=
  (gs.foldl mmStep ([], [])).2

/-- The sub-sequence of a market stream that wins the first-per-`market_id`
race against an already-present key set. -/
def winnersFrom (acc : List (Option String × Market)) :
    List Market → List Market
  | [] => []
  | m :: rest =>
    if (lookupA m.market_id acc).isSome then winnersFrom acc rest
    else m :: winnersFrom (acc ++ [(m.market_id, m)]) rest

/-- The odds instances the merge collects (`all_odds_raw`). -/
def collectedOdds (gs : List Game) : List Odds :=
  (gs.foldl mergeStep {}).all_odds_raw

/-- The running keep-the-strictly-later fold that the per-key history of
the latest-odds map follows. -/
def runningLatest : Option Odds → List Odds → Option Odds
  | c, [] => c
  | none, o :: rest => runningLatest (some o) rest
  | some cur, o :: rest =>
    runningLatest
      (some (if cur.timestamp_collected < o.timestamp_collected then o else cur))
      rest

/-! ## Hex digest facts -/

def hexDigits : List Char := "0123456789abcdef".toList

/-! ## Claim C10 — hash/equality inconsistency of `Game` -/

def c10team1 : Team :=
  { raw_name := "Lakers", canonical_name := "los angeles lakers",
    team_id := "lakers" }

def c10team2 : Team :=
  { raw_name := "Celtics", canonical_name := "boston celtics",
    team_id := "celtics" }

def c10game1 : Game :=
  { sport := .NBA, league := .NBA, start_time_utc := 0,
    home_team := c10team1, away_team := c10team2,
    bookmaker := .CRAB_SPORTS, raw_event_id := "e1", last_updated_utc := 0,
    game_id := none, markets := [] }

def c10game2 : Game :=
  { c10game1 with start_time_utc := 300, raw_event_id := "e2" }

def c5game1 : Game :=
  { sport := .NBA, league := .NBA, start_time_utc := 1735758000,
    home_team := c10team1, away_team := c10team2,
    bookmaker := .CRAB_SPORTS, raw_event_id := "a1", last_updated_utc := 0,
    game_id := some "g-a", markets := [] }

def c5game2 : Game :=
  { sport := .NBA, league := .NBA, start_time_utc := 1735758300,
    home_team := c10team2, away_team := c10team1,
    bookmaker := .PINNACLE, raw_event_id := "b1", last_updated_utc := 0,
    game_id := some "g-b", markets := [] }

/-! ## Claims C1, C2, C6 — the merge engine -/

/-- All market ids appearing in an input game list, in processing order. -/
def inputMarketIds (gs : List Game) : List (Option String) :=
  (gs.map (fun g => g.markets.map Market.market_id)).flatten

/-! Concrete two-provider input for the C1 witness. -/

def c1marketA : Market :=
  { market_id := some "ma", game_id := some "g-a",
    market_type := .MONEYLINE, line := none, period := .FULL_GAME,
    raw_market_name := some "Moneyline", last_updated_utc := 0, odds := [] }

def c1marketB : Market :=
  { market_id := some "mb", game_id := some "g-b",
    market_type := .SPREAD, line := some (3 / 2), period := .FULL_GAME,
    raw_market_name := some "Spread", last_updated_utc := 0, odds := [] }

def c1game1 : Game := { c5game1 with markets := [c1marketA] }

def c1game2 : Game := { c5game2 with markets := [c1marketB] }

def c2oddsA : Odds :=
  { market_id := "ma", bookmaker := .CRAB_SPORTS, side := .HOME,
    points := none, line := none, decimal_odds := 191 / 100,
    american_odds := some 91, timestamp_collected := 1 }

def c2gameA : Game := { c5game1 with markets := [{ c1marketA with odds := [c2oddsA] }] }

def c2gameB : Game := { c5game2 with markets := [c1marketB] }

def c6odds1 : Odds :=
  { market_id := "mx", bookmaker := .CRAB_SPORTS, side := .HOME,
    points := none, line := none, decimal_odds := 191 / 100,
    american_odds := some 91, timestamp_collected := 1 }

def c6odds2 : Odds := { c6odds1 with decimal_odds := 2, timestamp_collected := 2 }

def c6market1 : Market := { c1marketA with market_id := some "mx", odds := [c6odds1] }

def c6market2 : Market := { c1marketB with market_id := some "mx", odds := [c6odds2] }

def c6gameA : Game := { c5game1 with markets := [c6market1] }

def c6gameB : Game := { c5game2 with markets := [c6market2] }

/-- A single-game input whose one market carries both C6 odds records. -/
def c6wgame : Game :=
  { c6gameA with markets := [{ c6market1 with odds := [c6odds1, c6odds2] }] }

def c9sel1 : Json := .obj [("label", .str "Over 210.5"), ("odds", .num (mkRat 19 10))]
def c9sel2 : Json := .obj [("label", .str "Under 210.5"), ("odds", .num 2)]
def c9bet : Json := .obj [("label", .str "Total Points"),
  ("selections", .arr [c9sel1, c9sel2])]
def c9event : Json := .obj [
  ("id", .num 7),
  ("sport", .obj [("label", .str "Basketball")]),
  ("competition", .obj [("label", .str "NBA")]),
  ("start", .str "2025-01-15T19:30:00+00:00"),
  ("actors", .arr [
    .obj [("type", .str "home"), ("label", .str "Lakers")],
    .obj [("type", .str "away"), ("label", .str "Celtics")]]),
  ("markets", .arr [.obj [("bets", .arr [c9bet])]])]
def c9doc : Json := .obj [("components", .arr [
  .obj [("tree_compo_key", .str "prematch_event_list"),
        ("data", .obj [("events", .arr [c9event])])]])]

def c9odds1 : Odds :=
  { market_id := "nba_nba_celtics_at_lakers_20250115_total_2105",
    bookmaker := .CRAB_SPORTS, side := .OVER, points := none,
    line := some (mkRat 421 2), decimal_odds := mkRat 19 10,
    american_odds := some (-111), timestamp_collected := 100 }
def c9odds2 : Odds :=
  { market_id := "nba_nba_celtics_at_lakers_20250115_total_2105",
    bookmaker := .CRAB_SPORTS, side := .UNDER, points := none,
    line := some (mkRat 421 2), decimal_odds := 2,
    american_odds := some 100, timestamp_collected := 100 }
def c9market : Market :=
  { market_id := some "nba_nba_celtics_at_lakers_20250115_total_2105",
    game_id := some "nba_nba_celtics_at_lakers_20250115",
    market_type := .TOTAL, line := some (mkRat 421 2), period := .FULL_GAME,
    raw_market_name := some "Total Points", odds := [c9odds1, c9odds2] }
def c9game : Game :=
  { sport := .NBA, league := .NBA, start_time_utc := 1736969400,
    home_team := ⟨"Lakers", "los angeles lakers", "lakers"⟩,
    away_team := ⟨"Celtics", "boston celtics", "celtics"⟩,
    bookmaker := .CRAB_SPORTS, raw_event_id := "7",
    game_id := some "nba_nba_celtics_at_lakers_20250115",
    markets := [c9market] }

def c3selML1 : Json := .obj [("label", .str "Lakers"), ("odds", .num (mkRat 191 100))]
def c3selML2 : Json := .obj [("label", .str "Celtics"), ("odds", .num (mkRat 19 20))]
def c3betML : Json := .obj [("label", .str "Moneyline"),
  ("selections", .arr [c3selML1, c3selML2])]
def c3selT1 : Json := .obj [("label", .str "Over 210.5"), ("odds", .num (mkRat 19 10))]
def c3selT2 : Json := .obj [("label", .str "Under 210.5"), ("odds", .num 2)]
def c3betT : Json := .obj [("label", .str "Total Points"),
  ("selections", .arr [c3selT1, c3selT2])]
def c3event : Json := .obj [
  ("id", .num 11),
  ("sport", .obj [("label", .str "Basketball")]),
  ("competition", .obj [("label", .str "NBA")]),
  ("start", .str "2025-01-15T19:30:00+00:00"),
  ("actors", .arr [
    .obj [("type", .str "home"), ("label", .str "Lakers")],
    .obj [("type", .str "away"), ("label", .str "Celtics")]]),
  ("markets", .arr [.obj [("bets", .arr [c3betML])], .obj [("bets", .arr [c3betT])]])]
def c3doc : Json := .obj [("components", .arr [
  .obj [("tree_compo_key", .str "prematch_event_list"),
        ("data", .obj [("events", .arr [c3event])])]])]

def c3odds1 : Odds :=
  { market_id := "nba_nba_celtics_at_lakers_20250115_total_2105",
    bookmaker := .CRAB_SPORTS, side := .OVER, points := none,
    line := some (mkRat 421 2), decimal_odds := mkRat 19 10,
    american_odds := some (-111), timestamp_collected := 100 }
def c3odds2 : Odds :=
  { market_id := "nba_nba_celtics_at_lakers_20250115_total_2105",
    bookmaker := .CRAB_SPORTS, side := .UNDER, points := none,
    line := some (mkRat 421 2), decimal_odds := 2,
    american_odds := some 100, timestamp_collected := 100 }
def c3market : Market :=
  { market_id := some "nba_nba_celtics_at_lakers_20250115_total_2105",
    game_id := some "nba_nba_celtics_at_lakers_20250115",
    market_type := .TOTAL, line := some (mkRat 421 2), period := .FULL_GAME,
    raw_market_name := some "Total Points", odds := [c3odds1, c3odds2] }
def c3game : Game :=
  { sport := .NBA, league := .NBA, start_time_utc := 1736969400,
    home_team := ⟨"Lakers", "los angeles lakers", "lakers"⟩,
    away_team := ⟨"Celtics", "boston celtics", "celtics"⟩,
    bookmaker := .CRAB_SPORTS, raw_event_id := "11",
    game_id := some "nba_nba_celtics_at_lakers_20250115",
    markets := [c3market] }

def c4selML1 : Json := .obj [("label", .str "Jazz"), ("odds", .num (mkRat 191 100))]
def c4selML2 : Json := .obj [("label", .str "Suns"), ("odds", .num (mkRat 195 100))]
def c4betML : Json := .obj [("label", .str "Moneyline"),
  ("selections", .arr [c4selML1, c4selML2])]
def c4event : Json := .obj [
  ("id", .num 12),
  ("sport", .obj [("label", .str "Basketball")]),
  ("competition", .obj [("label", .str "NBA")]),
  ("start", .str "2025-01-16T01:00:00+00:00"),
  ("actors", .arr [
    .obj [("type", .str "home"), ("label", .str "Jazz")],
    .obj [("type", .str "away"), ("label", .str "Suns")]]),
  ("markets", .arr [.obj [("bets", .arr [c4betML])]])]
def c4goodDoc : Json := .obj [("components", .arr [
  .obj [("tree_compo_key", .str "prematch_event_list"),
        ("data", .obj [("events", .arr [c4event])])]])]

def c4odds1 : Odds :=
  { market_id := "nba_nba_suns_at_jazz_20250116_moneyline_base",
    bookmaker := .CRAB_SPORTS, side := .HOME, points := none, line := none,
    decimal_odds := mkRat 191 100, american_odds := some (-109),
    timestamp_collected := 100 }
def c4odds2 : Odds :=
  { market_id := "nba_nba_suns_at_jazz_20250116_moneyline_base",
    bookmaker := .CRAB_SPORTS, side := .AWAY, points := none, line := none,
    decimal_odds := mkRat 39 20, american_odds := some (-105),
    timestamp_collected := 100 }
def c4market : Market :=
  { market_id := some "nba_nba_suns_at_jazz_20250116_moneyline_base",
    game_id := some "nba_nba_suns_at_jazz_20250116",
    market_type := .MONEYLINE, line := none, period := .FULL_GAME,
    raw_market_name := some "Moneyline", odds := [c4odds1, c4odds2] }
def c4game : Game :=
  { sport := .NBA, league := .NBA, start_time_utc := 1736989200,
    home_team := ⟨"Jazz", "jazz", "jazz"⟩,
    away_team := ⟨"Suns", "suns", "suns"⟩,
    bookmaker := .CRAB_SPORTS, raw_event_id := "12",
    game_id := some "nba_nba_suns_at_jazz_20250116",
    markets := [c4market] }

/-! ## Association-list lemmas -/

theorem lookupA_append {κ α : Type} [DecidableEq κ] (k : κ)
    (l1 l2 : List (κ × α)) :
    lookupA k (l1 ++ l2) =
      match lookupA k l1 with
      | some v => some v
      | none => lookupA k l2 := by
  induction l1 with
  | nil => simp [lookupA]
  | cons p rest ih =>
    obtain ⟨k', v⟩ := p
    by_cases h : k' = k <;> simp [lookupA, h, ih]

theorem lookupA_eq_none_iff {κ α : Type} [DecidableEq κ] (k : κ)
    (l : List (κ × α)) :
    lookupA k l = none ↔ k ∉ l.map Prod.fst := by
  induction l with
  | nil => simp [lookupA]
  | cons p rest ih =>
    obtain ⟨k', v⟩ := p
    by_cases h : k' = k
    · subst h; simp [lookupA]
    · simp only [lookupA, h, if_false, List.map_cons, List.mem_cons]
      rw [ih]
      constructor
      · rintro hn (he | hm)
        · exact h he.symm
        · exact hn hm
      · intro hn hm
        exact hn (Or.inr hm)

theorem lookupA_mem {κ α : Type} [DecidableEq κ] {k : κ} {v : α}
    {l : List (κ × α)} (h : lookupA k l = some v) : (k, v) ∈ l := by
  induction l with
  | nil => simp [lookupA] at h
  | cons p rest ih =>
    obtain ⟨k', v'⟩ := p
    by_cases hk : k' = k
    · subst hk
      simp [lookupA] at h
      simp [h]
    · simp [lookupA, hk] at h
      exact List.mem_cons_of_mem _ (ih h)

theorem lookupA_updateA_self {κ α : Type} [DecidableEq κ] (k : κ) (v : α)
    (l : List (κ × α)) :
    lookupA k (updateA k v l) =
      match lookupA k l with
      | some _ => some v
      | none => none := by
  induction l with
  | nil => simp [lookupA, updateA]
  | cons p rest ih =>
    obtain ⟨k', v'⟩ := p
    by_cases h : k' = k <;> simp [lookupA, updateA, h, ih]

theorem lookupA_updateA_ne {κ α : Type} [DecidableEq κ] {q k : κ} (v : α)
    (l : List (κ × α)) (h : q ≠ k) :
    lookupA k (updateA q v l) = lookupA k l := by
  induction l with
  | nil => simp [lookupA, updateA]
  | cons p rest ih =>
    obtain ⟨k', v'⟩ := p
    by_cases h1 : k' = q
    · subst h1
      simp [updateA, lookupA, h]
    · by_cases h2 : k' = k <;>
        simp [updateA, lookupA, h1, h2, ih, Ne.symm h]

theorem updateA_map_fst {κ α : Type} [DecidableEq κ] (k : κ) (v : α)
    (l : List (κ × α)) : (updateA k v l).map Prod.fst = l.map Prod.fst := by
  induction l with
  | nil => simp [updateA]
  | cons p rest ih =>
    obtain ⟨k', v'⟩ := p
    by_cases h : k' = k <;> simp [updateA, h, ih]

theorem mem_updateA {κ α : Type} [DecidableEq κ] {k' : κ} {v' : α} (k : κ)
    (v : α) {l : List (κ × α)} (h : (k', v') ∈ updateA k v l) :
    (k', v') ∈ l ∨ (k', v') = (k, v) := by
  induction l with
  | nil => simp [updateA] at h
  | cons p rest ih =>
    obtain ⟨k'', v''⟩ := p
    by_cases hk : k'' = k
    · subst hk
      simp [updateA] at h
      rcases h with h | h
      · right; simp [h]
      · left; exact List.mem_cons_of_mem _ h
    · simp [updateA, hk] at h
      rcases h with h | h
      · left; simp [h]
      · rcases ih h with h' | h'
        · exact Or.inl (List.mem_cons_of_mem _ h')
        · exact Or.inr h'

/-- When the entries of an association list are key-consistent and the
keys are distinct, filtering the values by key gives exactly the looked-up
entry. -/
theorem filter_map_snd_assoc {κ α : Type} [DecidableEq κ] [DecidableEq α]
    (keyf : α → κ) :
    ∀ (l : List (κ × α)), (∀ p ∈ l, keyf p.2 = p.1) →
      ((l.map Prod.fst).Nodup) → ∀ k : κ,
      (l.map Prod.snd).filter (fun a => decide (keyf a = k)) =
        (lookupA k l).toList := by
  intro l
  induction l with
  | nil => intro _ _ k; simp [lookupA]
  | cons p rest ih =>
    intro hcons hnodup k
    obtain ⟨k', v⟩ := p
    have hv : keyf v = k' := hcons (k', v) (by simp)
    have hrest : ∀ q ∈ rest, keyf q.2 = q.1 := fun q hq =>
      hcons q (List.mem_cons_of_mem _ hq)
    have hnd : (rest.map Prod.fst).Nodup := (List.nodup_cons.mp hnodup).2
    have hk'n : k' ∉ rest.map Prod.fst := (List.nodup_cons.mp hnodup).1
    by_cases hk : k' = k
    · subst hk
      have hnone : lookupA k' rest = none := (lookupA_eq_none_iff _ _).mpr hk'n
      have hfil : (rest.map Prod.snd).filter (fun a => decide (keyf a = k')) =
          (lookupA k' rest).toList := ih hrest hnd k'
      rw [hnone] at hfil
      simp [lookupA, hv, hfil]
    · have := ih hrest hnd k
      simp [lookupA, hk, hv, this]

/-! ## Merge-engine structure lemmas -/

/-- `collectMarket` only touches the market/odds bookkeeping. -/
theorem collectMarket_canonical_games (st : MergeState) (m : Market) :
    (collectMarket st m).canonical_games = st.canonical_games := by
  unfold collectMarket
  split_ifs <;> rfl

theorem collectMarket_all_teams (st : MergeState) (m : Market) :
    (collectMarket st m).all_teams = st.all_teams := by
  unfold collectMarket
  split_ifs <;> rfl

theorem foldl_canonical_inv (f : MergeState → Market → MergeState)
    (h : ∀ st m, (f st m).canonical_games = st.canonical_games) :
    ∀ (ms : List Market) (st : MergeState),
      (ms.foldl f st).canonical_games = st.canonical_games := by
  intro ms
  induction ms with
  | nil => intro st; rfl
  | cons m rest ih => intro st; rw [List.foldl_cons, ih, h]

theorem collectTeams_canonical_games (st : MergeState) (g : Game) :
    (collectTeams st g).canonical_games = st.canonical_games := by
  simp only [collectTeams]
  split_ifs <;> rfl

theorem collectTeams_all_markets (st : MergeState) (g : Game) :
    (collectTeams st g).all_markets = st.all_markets := by
  simp only [collectTeams]
  split_ifs <;> rfl

theorem collectTeams_all_odds_raw (st : MergeState) (g : Game) :
    (collectTeams st g).all_odds_raw = st.all_odds_raw := by
  simp only [collectTeams]
  split_ifs <;> rfl

theorem collectTeams_processed (st : MergeState) (g : Game) :
    (collectTeams st g).processed_market_ids = st.processed_market_ids := by
  simp only [collectTeams]
  split_ifs <;> rfl

theorem mergeStep_canonical_games (st : MergeState) (g : Game) :
    (mergeStep st g).canonical_games = fbkStep st.canonical_games g := by
  unfold mergeStep fbkStep
  dsimp only
  rw [collectTeams_canonical_games]
  cases hl : lookupA (get_fuzzy_game_key g) st.canonical_games with
  | none =>
    rw [foldl_canonical_inv collectMarket collectMarket_canonical_games]
    simp [hl]
  | some cg =>
    rw [foldl_canonical_inv
      (fun s m => collectMarket s { m with game_id := cg.game_id })
      (fun s m => collectMarket_canonical_games s _)]
    simp [hl, collectTeams_canonical_games]

theorem foldl_mergeStep_canonical (gs : List Game) :
    ∀ st : MergeState,
      (gs.foldl mergeStep st).canonical_games =
        gs.foldl fbkStep st.canonical_games := by
  induction gs with
  | nil => intro st; rfl
  | cons g rest ih =>
    intro st
    rw [List.foldl_cons, List.foldl_cons, ih, mergeStep_canonical_games]

theorem save_games_eq_firstByKey (gs : List Game) :
    (save_normalized_data gs).games_to_save = (firstByKey gs).map Prod.snd := by
  unfold save_normalized_data firstByKey
  dsimp only
  rw [foldl_mergeStep_canonical]

theorem fbk_consistency :
    ∀ (gs : List Game) (acc : List (FuzzyKey × Game)),
      (∀ p ∈ acc, get_fuzzy_game_key p.2 = p.1) →
      ∀ p ∈ gs.foldl fbkStep acc, get_fuzzy_game_key p.2 = p.1 := by
  intro gs
  induction gs with
  | nil => intro acc h p hp; exact h p hp
  | cons g rest ih =>
    intro acc h p hp
    rw [List.foldl_cons] at hp
    refine ih _ ?_ p hp
    unfold fbkStep
    split_ifs with hs
    · exact h
    · intro q hq
      rcases List.mem_append.mp hq with hq | hq
      · exact h q hq
      · simp at hq
        simp [hq]

theorem fbk_nodup_keys :
    ∀ (gs : List Game) (acc : List (FuzzyKey × Game)),
      (acc.map Prod.fst).Nodup →
      ((gs.foldl fbkStep acc).map Prod.fst).Nodup := by
  intro gs
  induction gs with
  | nil => intro acc h; exact h
  | cons g rest ih =>
    intro acc h
    rw [List.foldl_cons]
    refine ih _ ?_
    unfold fbkStep
    split_ifs with hs
    · exact h
    · rw [List.map_append]
      refine List.Nodup.append h (by simp) ?_
      intro k hk1 hk2
      simp at hk2
      subst hk2
      have hs' : lookupA (get_fuzzy_game_key g) acc = none := by
        cases hmatch : lookupA (get_fuzzy_game_key g) acc with
        | none => rfl
        | some v => simp [hmatch] at hs
      exact (lookupA_eq_none_iff _ _).mp hs' hk1

theorem fbk_lookup (gs : List Game) :
    ∀ (acc : List (FuzzyKey × Game)) (k : FuzzyKey),
      lookupA k (gs.foldl fbkStep acc) =
        match lookupA k acc with
        | some v => some v
        | none => gs.find? (fun g => decide (get_fuzzy_game_key g = k)) := by
  induction gs with
  | nil => intro acc k; cases h : lookupA k acc <;> simp [h]
  | cons g rest ih =>
    intro acc k
    rw [List.foldl_cons, ih]
    unfold fbkStep
    by_cases hgk : get_fuzzy_game_key g = k
    · subst hgk
      cases hl : lookupA (get_fuzzy_game_key g) acc with
      | some v => simp [hl, List.find?]
      | none =>
        rw [if_neg (by simp [hl])]
        rw [lookupA_append, hl]
        simp [lookupA, List.find?]
    · cases hl : lookupA (get_fuzzy_game_key g) acc with
      | some v =>
        simp only [hl, Option.isSome_some, if_true]
        cases hl2 : lookupA k acc <;>
          simp [List.find?_cons_of_neg, hgk]
      | none =>
        rw [if_neg (by simp [hl])]
        rw [lookupA_append]
        cases hl2 : lookupA k acc with
        | some v => simp
        | none =>
          have : lookupA k [(get_fuzzy_game_key g, g)] = none := by
            simp [lookupA, hgk]
          simp [this, List.find?_cons_of_neg, hgk]

theorem projB_collectMarket (st : MergeState) (m : Market) :
    projB (collectMarket st m) = collectB (projB st) m := by
  unfold collectMarket collectB projB
  split_ifs <;> rfl

theorem projB_collectTeams (st : MergeState) (g : Game) :
    projB (collectTeams st g) = projB st := by
  simp only [collectTeams]
  split_ifs <;> rfl

theorem projB_foldl_collect_id :
    ∀ (ms : List Market) (st : MergeState),
      projB (ms.foldl collectMarket st) = ms.foldl collectB (projB st) := by
  intro ms
  induction ms with
  | nil => intro st; rfl
  | cons m rest ih =>
    intro st
    rw [List.foldl_cons, List.foldl_cons, ih, projB_collectMarket]

theorem projB_foldl_collect_re (gid : Option String) :
    ∀ (ms : List Market) (st : MergeState),
      projB (ms.foldl (fun s m => collectMarket s { m with game_id := gid }) st) =
        (ms.map (fun m => { m with game_id := gid })).foldl collectB (projB st) := by
  intro ms
  induction ms with
  | nil => intro st; rfl
  | cons m rest ih =>
    intro st
    rw [List.foldl_cons, List.map_cons, List.foldl_cons, ih, projB_collectMarket]

theorem mmStep_fst (acc : List (FuzzyKey × Game) × List Market) (g : Game) :
    (mmStep acc g).1 = fbkStep acc.1 g := by
  unfold mmStep fbkStep
  cases hl : lookupA (get_fuzzy_game_key g) acc.1 <;> simp [hl]

theorem mm_fst (gs : List Game) :
    ∀ acc, (gs.foldl mmStep acc).1 = gs.foldl fbkStep acc.1 := by
  induction gs with
  | nil => intro acc; rfl
  | cons g rest ih =>
    intro acc
    rw [List.foldl_cons, List.foldl_cons, ih, mmStep_fst]

theorem mmStep_shift (c : List (FuzzyKey × Game)) (s : List Market)
    (g : Game) :
    mmStep (c, s) g = ((mmStep (c, []) g).1, s ++ (mmStep (c, []) g).2) := by
  unfold mmStep
  cases hl : lookupA (get_fuzzy_game_key g) c <;> simp [hl]

theorem mm_snd_append (gs : List Game) :
    ∀ (c : List (FuzzyKey × Game)) (s : List Market),
      (gs.foldl mmStep (c, s)).2 = s ++ (gs.foldl mmStep (c, [])).2 := by
  induction gs with
  | nil => intro c s; simp
  | cons g rest ih =>
    intro c s
    rw [List.foldl_cons, List.foldl_cons, mmStep_shift c s g, ih]
    have heta : mmStep (c, ([] : List Market)) g =
        ((mmStep (c, ([] : List Market)) g).1,
         (mmStep (c, ([] : List Market)) g).2) := rfl
    conv_rhs => rw [heta, ih]
    rw [List.append_assoc]

theorem projB_set_canonical (st : MergeState) (c : List (FuzzyKey × Game)) :
    projB { st with canonical_games := c } = projB st := rfl

theorem projB_mergeStep (st : MergeState) (g : Game) :
    projB (mergeStep st g) =
      (mmStep (st.canonical_games, []) g).2.foldl collectB (projB st) := by
  unfold mergeStep mmStep
  dsimp only
  rw [collectTeams_canonical_games]
  cases hl : lookupA (get_fuzzy_game_key g) st.canonical_games with
  | none =>
    simp only [hl]
    rw [projB_foldl_collect_id, projB_set_canonical, projB_collectTeams]
    simp
  | some cg =>
    simp only [hl]
    rw [projB_foldl_collect_re, projB_collectTeams]
    simp

theorem projB_runMerge (gs : List Game) :
    ∀ st : MergeState,
      projB (gs.foldl mergeStep st) =
        ((gs.foldl mmStep (st.canonical_games, [])).2).foldl collectB (projB st) := by
  induction gs with
  | nil => intro st; rfl
  | cons g rest ih =>
    intro st
    rw [List.foldl_cons, List.foldl_cons, ih, mergeStep_canonical_games]
    have heta : mmStep (st.canonical_games, ([] : List Market)) g =
        ((mmStep (st.canonical_games, ([] : List Market)) g).1,
         (mmStep (st.canonical_games, ([] : List Market)) g).2) := rfl
    conv_rhs => rw [heta, mm_snd_append, List.foldl_append]
    rw [mmStep_fst, ← projB_mergeStep]

theorem winnersFrom_cons (acc : List (Option String × Market)) (m : Market)
    (rest : List Market) :
    winnersFrom acc (m :: rest) =
      if (lookupA m.market_id acc).isSome then winnersFrom acc rest
      else m :: winnersFrom (acc ++ [(m.market_id, m)]) rest := rfl

/-- Full characterisation of the bookkeeping fold: because
`processed_market_ids` always equals the stored market ids, the
`elif market_id not in processed` branch of the source is unreachable, and
the fold stores the first market per id and collects exactly the winners'
odds. -/
theorem collectB_run (ms : List Market) :
    ∀ a : BookAcc, a.processed_market_ids = a.all_markets.map Prod.fst →
      ms.foldl collectB a =
        { all_markets := a.all_markets ++
            (winnersFrom a.all_markets ms).map (fun m => (m.market_id, m)),
          all_odds_raw := a.all_odds_raw ++
            ((winnersFrom a.all_markets ms).map Market.odds).flatten,
          processed_market_ids := a.processed_market_ids ++
            (winnersFrom a.all_markets ms).map Market.market_id } := by
  induction ms with
  | nil => intro a ha; simp [winnersFrom]
  | cons m rest ih =>
    intro a ha
    rw [List.foldl_cons]
    cases hl : lookupA m.market_id a.all_markets with
    | some v =>
      have hmem : m.market_id ∈ a.processed_market_ids := by
        rw [ha]
        exact List.mem_map_of_mem Prod.fst (lookupA_mem hl)
      have hcb : collectB a m = a := by
        unfold collectB
        simp [hl, hmem]
      rw [hcb, ih a ha, winnersFrom_cons]
      simp [hl]
    | none =>
      have hcb : collectB a m =
          { all_markets := a.all_markets ++ [(m.market_id, m)]
            all_odds_raw := a.all_odds_raw ++ m.odds
            processed_market_ids := a.processed_market_ids ++ [m.market_id] } := by
        unfold collectB
        simp [hl]
      rw [hcb]
      have ha' : (a.processed_market_ids ++ [m.market_id]) =
          (a.all_markets ++ [(m.market_id, m)]).map Prod.fst := by
        simp [ha]
      rw [ih _ ha', winnersFrom_cons]
      simp [hl, List.append_assoc]

theorem runMerge_book (gs : List Game) :
    projB (gs.foldl mergeStep {}) =
      { all_markets :=
          (winnersFrom [] (mergedMarkets gs)).map (fun m => (m.market_id, m)),
        all_odds_raw :=
          ((winnersFrom [] (mergedMarkets gs)).map Market.odds).flatten,
        processed_market_ids :=
          (winnersFrom [] (mergedMarkets gs)).map Market.market_id } := by
  rw [projB_runMerge]
  rw [collectB_run _ _ rfl]
  rfl

theorem save_markets_eq (gs : List Game) :
    (save_normalized_data gs).markets = winnersFrom [] (mergedMarkets gs) := by
  have h := congrArg BookAcc.all_markets (runMerge_book gs)
  unfold save_normalized_data
  dsimp only
  show ((gs.foldl mergeStep {}).all_markets).map Prod.snd = _
  have : (gs.foldl mergeStep {}).all_markets = (projB (gs.foldl mergeStep {})).all_markets := rfl
  rw [this, runMerge_book]
  show ((winnersFrom [] (mergedMarkets gs)).map (fun m => (m.market_id, m))).map Prod.snd = _
  rw [List.map_map]
  rw [show (Prod.snd ∘ fun m : Market => (m.market_id, m)) = id from rfl, List.map_id]

theorem collectedOdds_eq (gs : List Game) :
    collectedOdds gs =
      ((winnersFrom [] (mergedMarkets gs)).map Market.odds).flatten := by
  unfold collectedOdds
  have : (gs.foldl mergeStep {}).all_odds_raw =
      (projB (gs.foldl mergeStep {})).all_odds_raw := rfl
  rw [this, runMerge_book]

theorem save_odds_eq (gs : List Game) :
    (save_normalized_data gs).unique_latest_odds =
      ((collectedOdds gs).foldl latestFold []).map Prod.snd := rfl

/-- The market ids of the merged stream are the input market ids in
processing order (re-parenting does not change `market_id`). -/
theorem mergedMarkets_ids (gs : List Game) :
    ∀ acc, ((gs.foldl mmStep acc).2).map Market.market_id =
      acc.2.map Market.market_id ++
        (gs.map (fun g => g.markets.map Market.market_id)).flatten := by
  induction gs with
  | nil => intro acc; simp
  | cons g rest ih =>
    intro acc
    rw [List.foldl_cons, ih]
    unfold mmStep
    cases hl : lookupA (get_fuzzy_game_key g) acc.1 <;>
      simp [hl, List.map_map, List.append_assoc, Function.comp]

/-- With globally distinct market ids every market in the stream wins. -/
theorem winnersFrom_of_nodup :
    ∀ (ms : List Market) (acc : List (Option String × Market)),
      (∀ m ∈ ms, m.market_id ∉ acc.map Prod.fst) →
      (ms.map Market.market_id).Nodup →
      winnersFrom acc ms = ms := by
  intro ms
  induction ms with
  | nil => intro acc _ _; rfl
  | cons m rest ih =>
    intro acc hfresh hnodup
    have hl : lookupA m.market_id acc = none :=
      (lookupA_eq_none_iff _ _).mpr (hfresh m (by simp))
    rw [winnersFrom_cons, hl]
    simp only [Option.isSome_none, Bool.false_eq_true, if_false]
    congr 1
    have hnd : m.market_id ∉ rest.map Market.market_id ∧
        (rest.map Market.market_id).Nodup :=
      List.nodup_cons.mp (by simpa using hnodup)
    refine ih _ ?_ hnd.2
    intro m' hm'
    rw [List.map_append]
    intro hc
    rcases List.mem_append.mp hc with hc | hc
    · exact hfresh m' (List.mem_cons_of_mem _ hm') hc
    · simp at hc
      exact hnd.1 (hc ▸ List.mem_map_of_mem Market.market_id hm')

/-! ## Latest-odds filter lemmas -/

theorem latestFold_consistency (acc : List (OddsKey × Odds)) (o : Odds)
    (h : ∀ p ∈ acc, oddsKeyOf p.2 = p.1) :
    ∀ p ∈ latestFold acc o, oddsKeyOf p.2 = p.1 := by
  unfold latestFold
  cases hl : lookupA (oddsKeyOf o) acc with
  | none =>
    dsimp only
    intro p hp
    rcases List.mem_append.mp hp with hp | hp
    · exact h p hp
    · simp at hp
      simp [hp]
  | some cur =>
    dsimp only
    split_ifs with ht
    · intro p hp
      rcases mem_updateA _ _ hp with hp | hp
      · exact h p hp
      · rw [Prod.mk.injEq] at hp
        rw [hp.2, hp.1]
    · exact h

theorem latestFold_keys (acc : List (OddsKey × Odds)) (o : Odds) :
    (latestFold acc o).map Prod.fst =
      if (lookupA (oddsKeyOf o) acc).isSome then acc.map Prod.fst
      else acc.map Prod.fst ++ [oddsKeyOf o] := by
  unfold latestFold
  cases hl : lookupA (oddsKeyOf o) acc with
  | none => simp
  | some cur =>
    dsimp only
    simp only [Option.isSome_some, if_true]
    split_ifs with ht
    · simp [updateA_map_fst]
    · rfl

theorem latestFold_nodup (acc : List (OddsKey × Odds)) (o : Odds)
    (h : (acc.map Prod.fst).Nodup) :
    ((latestFold acc o).map Prod.fst).Nodup := by
  rw [latestFold_keys]
  split_ifs with hs
  · exact h
  · refine List.Nodup.append h (by simp) ?_
    intro k hk1 hk2
    simp at hk2
    subst hk2
    have : lookupA (oddsKeyOf o) acc = none := by
      cases hl : lookupA (oddsKeyOf o) acc with
      | none => rfl
      | some v => simp [hl] at hs
    exact (lookupA_eq_none_iff _ _).mp this hk1

theorem latestFold_lookup (acc : List (OddsKey × Odds)) (o : Odds)
    (k : OddsKey) :
    lookupA k (latestFold acc o) =
      if oddsKeyOf o = k then
        match lookupA k acc with
        | none => some o
        | some cur =>
          some (if cur.timestamp_collected < o.timestamp_collected then o
                else cur)
      else lookupA k acc := by
  unfold latestFold
  by_cases hk : oddsKeyOf o = k
  · subst hk
    cases hl : lookupA (oddsKeyOf o) acc with
    | none =>
      dsimp only
      rw [lookupA_append, hl]
      simp [lookupA]
    | some cur =>
      dsimp only
      rw [if_pos rfl]
      split_ifs with ht
      · rw [lookupA_updateA_self, hl]
      · exact hl
  · cases hl : lookupA (oddsKeyOf o) acc with
    | none =>
      dsimp only
      rw [lookupA_append, if_neg hk]
      cases hl2 : lookupA k acc with
      | some v => simp
      | none => simp [lookupA, hk]
    | some cur =>
      dsimp only
      rw [if_neg hk]
      split_ifs with ht
      · exact lookupA_updateA_ne _ _ hk
      · rfl

theorem latest_lookup_run (odds : List Odds) :
    ∀ (acc : List (OddsKey × Odds)) (k : OddsKey),
      lookupA k (odds.foldl latestFold acc) =
        runningLatest (lookupA k acc)
          (odds.filter (fun o => decide (oddsKeyOf o = k))) := by
  induction odds with
  | nil =>
    intro acc k
    cases hc : lookupA k acc <;> simp [runningLatest, hc]
  | cons o rest ih =>
    intro acc k
    rw [List.foldl_cons, ih, latestFold_lookup]
    by_cases hk : oddsKeyOf o = k
    · rw [if_pos hk, List.filter_cons_of_pos (by simp [hk])]
      cases hl : lookupA k acc <;> simp [runningLatest]
    · rw [if_neg hk, List.filter_cons_of_neg (by simp [hk])]

theorem runningLatest_spec (l : List Odds) :
    ∀ (c : Option Odds) (o : Odds), runningLatest c l = some o →
      (o ∈ l ∨ c = some o) ∧
      (∀ o' ∈ l, o'.timestamp_collected ≤ o.timestamp_collected) ∧
      (∀ x, c = some x → x.timestamp_collected ≤ o.timestamp_collected) := by
  induction l with
  | nil =>
    intro c o h
    cases c with
    | none => simp [runningLatest] at h
    | some x =>
      simp [runningLatest] at h
      subst h
      exact ⟨Or.inr rfl, by simp, fun x hx => by simp at hx; simp [hx]⟩
  | cons a rest ih =>
    intro c o h
    cases c with
    | none =>
      have hspec := ih (some a) o h
      refine ⟨?_, ?_, by simp⟩
      · rcases hspec.1 with hm | hm
        · exact Or.inl (List.mem_cons_of_mem _ hm)
        · simp at hm
          exact Or.inl (hm ▸ List.mem_cons_self _ _)
      · intro o' ho'
        rcases List.mem_cons.mp ho' with ho' | ho'
        · exact ho' ▸ hspec.2.2 a rfl
        · exact hspec.2.1 o' ho'
    | some cur =>
      have hspec := ih _ o h
      set nxt := if cur.timestamp_collected < a.timestamp_collected then a
        else cur with hnxt
      have hats : a.timestamp_collected ≤ nxt.timestamp_collected := by
        rw [hnxt]
        split_ifs with hc
        · exact le_refl _
        · exact le_of_not_lt hc
      have hcts : cur.timestamp_collected ≤ nxt.timestamp_collected := by
        rw [hnxt]
        split_ifs with hc
        · exact le_of_lt hc
        · exact le_refl _
      have hnle : nxt.timestamp_collected ≤ o.timestamp_collected :=
        hspec.2.2 nxt rfl
      refine ⟨?_, ?_, ?_⟩
      · rcases hspec.1 with hm | hm
        · exact Or.inl (List.mem_cons_of_mem _ hm)
        · simp at hm
          rw [hnxt] at hm
          by_cases hc : cur.timestamp_collected < a.timestamp_collected
          · rw [if_pos hc] at hm
            exact Or.inl (hm ▸ List.mem_cons_self _ _)
          · rw [if_neg hc] at hm
            exact Or.inr (by rw [hm])
      · intro o' ho'
        rcases List.mem_cons.mp ho' with ho' | ho'
        · exact ho' ▸ le_trans hats hnle
        · exact hspec.2.1 o' ho'
      · intro x hx
        cases hx
        exact le_trans hcts hnle

theorem runningLatest_isSome_aux (l : List Odds) :
    ∀ x : Odds, (runningLatest (some x) l).isSome := by
  induction l with
  | nil => intro x; rfl
  | cons a rest ih => intro x; exact ih _

theorem runningLatest_isSome (l : List Odds) (hl : l ≠ []) :
    (runningLatest none l).isSome := by
  cases l with
  | nil => exact absurd rfl hl
  | cons a rest => exact runningLatest_isSome_aux rest a

theorem latestMap_consistency (odds : List Odds) :
    ∀ acc, (∀ p ∈ acc, oddsKeyOf p.2 = p.1) →
      ∀ p ∈ odds.foldl latestFold acc, oddsKeyOf p.2 = p.1 := by
  induction odds with
  | nil => intro acc h; exact h
  | cons o rest ih =>
    intro acc h
    rw [List.foldl_cons]
    exact ih _ (latestFold_consistency acc o h)

theorem latestMap_nodup (odds : List Odds) :
    ∀ acc, ((acc.map Prod.fst).Nodup) →
      (((odds.foldl latestFold acc).map Prod.fst).Nodup) := by
  induction odds with
  | nil => intro acc h; exact h
  | cons o rest ih =>
    intro acc h
    rw [List.foldl_cons]
    exact ih _ (latestFold_nodup acc o h)

theorem toHexFixed_length : ∀ (k n : ℕ), (toHexFixed k n).length = k := by
  intro k
  induction k with
  | zero => intro n; rfl
  | succ k ih => intro n; simp [toHexFixed, ih]

theorem hexChar_mem (r : ℕ) (h : r < 16) : hexChar r ∈ hexDigits := by
  have hall : ∀ x : Fin 16, hexChar x.val ∈ hexDigits := by decide
  exact hall ⟨r, h⟩

theorem toHexFixed_mem_hex : ∀ (k n : ℕ), ∀ c ∈ toHexFixed k n, c ∈ hexDigits := by
  intro k
  induction k with
  | zero => intro n c hc; simp [toHexFixed] at hc
  | succ k ih =>
    intro n c hc
    simp only [toHexFixed, List.mem_append, List.mem_singleton] at hc
    rcases hc with hc | hc
    · exact ih _ c hc
    · subst hc
      exact hexChar_mem _ (Nat.mod_lt _ (by norm_num))

theorem sha1Hex_length (s : String) : (sha1Hex s).length = 40 := by
  unfold sha1Hex sha1Words
  simp [String.length, toHexFixed_length]

theorem sha1Hex_mem (s : String) : ∀ c ∈ (sha1Hex s).toList, c ∈ hexDigits := by
  intro c hc
  unfold sha1Hex sha1Words at hc
  simp only [String.toList, String.data] at hc
  simp at hc
  rcases hc with hc | hc | hc | hc | hc <;> exact toHexFixed_mem_hex _ _ c hc

/-! ## Claim C7 — `generate_canonical_id` -/

/-- C7: `generate_id` is deterministic and total; empty parts are skipped;
a cleaned string of at most 100 characters is returned verbatim, and a
longer one is replaced by a 16-character hexadecimal digest. -/
theorem C7_generate_id (args : List String) :
    generate_canonical_id args = generate_canonical_id args ∧
    generate_canonical_id args =
      generate_canonical_id (args.filter (fun a => a ≠ "")) ∧
    (let cleaned := String.mk ((replaceSpaces (String.intercalate "_"
        ((args.filter (fun a => a ≠ "")).map pyLower))).toList.filter
          isWordChar)
     (cleaned.length ≤ 100 → generate_canonical_id args = cleaned) ∧
     (100 < cleaned.length →
        generate_canonical_id args = (sha1Hex cleaned).take 16 ∧
        (generate_canonical_id args).length = 16 ∧
        ∀ c ∈ (generate_canonical_id args).toList, c ∈ hexDigits)) := by
  have hfilter : (args.filter (fun a => a ≠ "")).filter (fun a => a ≠ "") =
      args.filter (fun a => a ≠ "") := by
    rw [List.filter_filter]
    simp
  refine ⟨rfl, ?_, ?_, ?_⟩
  · unfold generate_canonical_id
    rw [hfilter]
  · intro hle
    unfold generate_canonical_id
    rw [if_neg (by omega)]
  · intro hgt
    have heq : generate_canonical_id args =
        (sha1Hex (String.mk ((replaceSpaces (String.intercalate "_"
          ((args.filter (fun a => a ≠ "")).map pyLower))).toList.filter
            isWordChar))).take 16 := by
      unfold generate_canonical_id
      rw [if_pos (by omega)]
    refine ⟨heq, ?_, ?_⟩
    · rw [heq, String.take_eq]
      simp only [String.length]
      rw [List.length_take]
      have h40 : (sha1Hex (String.mk ((replaceSpaces (String.intercalate "_"
          ((args.filter (fun a => a ≠ "")).map pyLower))).toList.filter
            isWordChar))).length = 40 := sha1Hex_length _
      simp only [String.length] at h40
      omega
    · intro c hc
      rw [heq, String.take_eq] at hc
      simp only [String.toList, String.data] at hc
      have hsub := List.take_subset 16 (sha1Hex (String.mk ((replaceSpaces
        (String.intercalate "_"
          ((args.filter (fun a => a ≠ "")).map pyLower))).toList.filter
            isWordChar))).data
      have := sha1Hex_mem (String.mk ((replaceSpaces (String.intercalate "_"
          ((args.filter (fun a => a ≠ "")).map pyLower))).toList.filter
            isWordChar)) c
      exact this (by simpa [String.toList] using hsub hc)

/-- Witness for C7 at concrete inputs: a short cleaned input returns the
cleaned string, a 101-character input returns a 16-character digest. -/
theorem C7_generate_id_witness :
    generate_canonical_id ["", "New York Knicks!"] = "new_york_knicks" ∧
    (generate_canonical_id [String.mk (List.replicate 101 'a')]).length = 16 := by
  have h1 := (C7_generate_id ["", "New York Knicks!"]).2.2.1 (by decide)
  have h2 := ((C7_generate_id [String.mk (List.replicate 101 'a')]).2.2.2
    (by decide)).2.1
  exact ⟨by rw [h1]; decide, h2⟩

/-! ## Claim C8 — price conversion -/

/-- C8: +150 converts to 2.50 and −150 to 1.667 (±0.001) under the
spec-modelled `american_to_decimal`; and for every decimal price `d > 1`,
the American odds the `Odds` entity derives at construction convert back
to within 0.01 of `d`. -/
theorem C8_price_conversion :
    americanToDecimal 150 = some (5 / 2) ∧
    (∃ q, americanToDecimal (-150) = some q ∧ |q - 1667 / 1000| ≤ 1 / 1000) ∧
    (∀ d : ℚ, 1 < d →
      ∀ (market_id : String) (bk : Bookmaker) (side : MarketSide)
        (points line : Option ℚ) (ts : ℤ),
        ∃ (o : Odds) (a : ℤ) (q : ℚ),
          mkOdds market_id bk side points line d none ts = some o ∧
          o.american_odds = some a ∧
          americanToDecimal (a : ℚ) = some q ∧
          |q - d| ≤ 1 / 100) := by
  refine ⟨?_, ?_, ?_⟩
  · unfold americanToDecimal
    norm_num
  · refine ⟨5 / 3, ?_, by norm_num [abs_le]⟩
    unfold americanToDecimal
    norm_num
  · intro d hd market_id bk side points line ts
    have hd0 : (0 : ℚ) < d := lt_trans one_pos hd
    have hmk : mkOdds market_id bk side points line d none ts =
        some (oddsPostInit
          { market_id, bookmaker := bk, side, points, line,
            decimal_odds := d, american_odds := none,
            timestamp_collected := ts }) := by
      unfold mkOdds
      rw [if_pos hd]
    by_cases h2 : 2 ≤ d
    · -- a = int((d - 1) * 100) = ⌊(d - 1) * 100⌋ ≥ 100
      set x : ℚ := (d - 1) * 100 with hx
      have hx0 : (0 : ℚ) ≤ x := by
        rw [hx]; nlinarith
      have hpost : oddsPostInit
          { market_id, bookmaker := bk, side, points, line,
            decimal_odds := d, american_odds := none,
            timestamp_collected := ts } =
          { market_id, bookmaker := bk, side, points, line,
            decimal_odds := d, american_odds := some ⌊x⌋,
            timestamp_collected := ts } := by
        unfold oddsPostInit
        rw [if_pos ⟨rfl, hd0⟩, if_pos h2]
        unfold pyInt
        rw [if_pos hx0]
      have hfl : (100 : ℤ) ≤ ⌊x⌋ := by
        rw [Int.le_floor]
        push_cast
        nlinarith
      have hfq : (0 : ℚ) < (⌊x⌋ : ℚ) := by
        have : (100 : ℚ) ≤ (⌊x⌋ : ℚ) := by exact_mod_cast hfl
        linarith
      refine ⟨_, ⌊x⌋, (⌊x⌋ : ℚ) / 100 + 1, by rw [hmk, hpost], rfl, ?_, ?_⟩
      · unfold americanToDecimal
        rw [if_pos hfq]
      · have hle := Int.floor_le x
        have hlt := Int.sub_one_lt_floor x
        rw [abs_le]
        constructor <;> [nlinarith; nlinarith]
    · -- 1 < d < 2 : a = int(-100 / (d - 1)) = -⌊100 / (d - 1)⌋ ≤ -100
      push_neg at h2
      have hdm : (0 : ℚ) < d - 1 := by linarith
      set y : ℚ := 100 / (d - 1) with hy
      have hy100 : (100 : ℚ) < y := by
        rw [hy, lt_div_iff hdm]
        nlinarith
      have hy0 : (0 : ℚ) < y := by linarith
      have hfl : (100 : ℤ) ≤ ⌊y⌋ := by
        rw [Int.le_floor]
        push_cast
        linarith
      have hfq : (100 : ℚ) ≤ (⌊y⌋ : ℚ) := by exact_mod_cast hfl
      have hfq0 : (0 : ℚ) < (⌊y⌋ : ℚ) := by linarith
      have hneg : ¬ (0 : ℚ) ≤ -100 / (d - 1) := by
        rw [neg_div]
        simp only [not_le, neg_neg]
        rw [neg_lt_zero]
        exact div_pos (by norm_num) hdm
      have hpost : oddsPostInit
          { market_id, bookmaker := bk, side, points, line,
            decimal_odds := d, american_odds := none,
            timestamp_collected := ts } =
          { market_id, bookmaker := bk, side, points, line,
            decimal_odds := d, american_odds := some (-⌊y⌋),
            timestamp_collected := ts } := by
        unfold oddsPostInit
        rw [if_pos ⟨rfl, hd0⟩, if_neg (by linarith)]
        unfold pyInt
        rw [if_neg hneg]
        congr 1
        rw [neg_div, Int.ceil_neg, hy]
      have ha2d : americanToDecimal ((-⌊y⌋ : ℤ) : ℚ) =
          some (100 / (⌊y⌋ : ℚ) + 1) := by
        unfold americanToDecimal
        rw [if_neg (by push_cast; linarith), if_pos (by push_cast; linarith)]
        push_cast
        ring_nf
      refine ⟨_, -⌊y⌋, 100 / (⌊y⌋ : ℚ) + 1, by rw [hmk, hpost], rfl, ha2d, ?_⟩
      have hle := Int.floor_le y
      have hlt := Int.sub_one_lt_floor y
      have hdy : d = 100 / y + 1 := by
        rw [hy]
        field_simp
      have hq1gen : ∀ t' y' : ℚ, t' ≠ 0 → y' ≠ 0 →
          100 / t' - 100 / y' = 100 * (y' - t') / (t' * y') := by
        intro t' y' ht' hy'
        field_simp
        ring
      have hq1 : 100 / (⌊y⌋ : ℚ) - 100 / y =
          100 * (y - (⌊y⌋ : ℚ)) / ((⌊y⌋ : ℚ) * y) :=
        hq1gen _ _ (ne_of_gt hfq0) (ne_of_gt hy0)
      rw [hdy]
      have : 100 / (⌊y⌋ : ℚ) + 1 - (100 / y + 1) = 100 / (⌊y⌋ : ℚ) - 100 / y := by
        ring
      rw [this, hq1, abs_le]
      constructor
      · have hnum : (0 : ℚ) ≤ 100 * (y - (⌊y⌋ : ℚ)) := by nlinarith
        have hden : (0 : ℚ) < (⌊y⌋ : ℚ) * y := by nlinarith
        have := div_nonneg hnum (le_of_lt hden)
        linarith
      · rw [div_le_iff (by nlinarith : (0 : ℚ) < (⌊y⌋ : ℚ) * y)]
        nlinarith

/-- Witness for C8: the round trip at `d = 5/2`. -/
theorem C8_price_conversion_witness :
    americanToDecimal 150 = some (5 / 2) ∧
    (mkOdds "m" Bookmaker.PINNACLE MarketSide.HOME none none (5 / 2) none
      0).isSome = true := by
  refine ⟨C8_price_conversion.1, ?_⟩
  obtain ⟨o, a, q, hmk, ha, hq, hclose⟩ :=
    C8_price_conversion.2.2 (5 / 2) (by norm_num) "m" Bookmaker.PINNACLE
      MarketSide.HOME none none 0
  rw [hmk]
  rfl

/-- C10: two `Game` values without `game_id`, equal under the fallback
rule (|Δt| ≤ 300 s), whose start times land in different 300-second
rounding buckets and therefore hash differently. -/
theorem C10_hash_eq_inconsistency :
    c10game1.game_id = none ∧ c10game2.game_id = none ∧
    c10game1.sport = c10game2.sport ∧ c10game1.league = c10game2.league ∧
    c10game1.home_team.raw_name = c10game2.home_team.raw_name ∧
    c10game1.away_team.raw_name = c10game2.away_team.raw_name ∧
    (c10game1.start_time_utc - c10game2.start_time_utc).natAbs ≤ 300 ∧
    gameEq c10game1 c10game2 = true ∧
    roundHalfEven c10game1.start_time_utc 300 ≠
      roundHalfEven c10game2.start_time_utc 300 ∧
    gameHashKey c10game1 ≠ gameHashKey c10game2 := by
  decide

/-! ## Claim C5 — fuzzy-key symmetry -/

theorem charListLt_asymm :
    ∀ as bs : List Char, charListLt as bs = true → charListLt bs as = false := by
  intro as
  induction as with
  | nil =>
    intro bs h
    cases bs with
    | nil => simp [charListLt] at h
    | cons b bs => rfl
  | cons a as ih =>
    intro bs h
    cases bs with
    | nil => simp [charListLt] at h
    | cons b bs =>
      unfold charListLt at h ⊢
      by_cases hab : a < b
      · rw [if_neg (asymm hab), if_pos hab]
      · rw [if_neg hab] at h
        by_cases hba : b < a
        · rw [if_pos hba] at h
          exact absurd h (by simp)
        · rw [if_neg hba] at h
          rw [if_neg hba, if_neg hab]
          exact ih bs h

theorem charListLt_conn :
    ∀ as bs : List Char, charListLt as bs = false → charListLt bs as = false →
      as = bs := by
  intro as
  induction as with
  | nil =>
    intro bs h1 h2
    cases bs with
    | nil => rfl
    | cons b bs => simp [charListLt] at h1
  | cons a as ih =>
    intro bs h1 h2
    cases bs with
    | nil => simp [charListLt] at h2
    | cons b bs =>
      unfold charListLt at h1 h2
      by_cases hab : a < b
      · rw [if_pos hab] at h1
        exact absurd h1 (by simp)
      · by_cases hba : b < a
        · rw [if_pos hba] at h2
          exact absurd h2 (by simp)
        · rw [if_neg hab, if_neg hba] at h1
          rw [if_neg hba, if_neg hab] at h2
          have hchar : a = b := le_antisymm (not_lt.mp hba) (not_lt.mp hab)
          rw [hchar, ih bs h1 h2]

theorem sortedPair_comm (a b : String) : sortedPair a b = sortedPair b a := by
  unfold sortedPair
  cases h1 : strLt b a with
  | true =>
    have h2 : strLt a b = false := charListLt_asymm _ _ h1
    rw [h2]
    simp
  | false =>
    cases h2 : strLt a b with
    | true => simp
    | false =>
      have heq : a.toList = b.toList := charListLt_conn _ _ h2 h1
      have hab : a = b := by
        cases a; cases b
        simpa [String.toList] using congrArg String.mk heq
      rw [hab]

/-- C5: two games agreeing on sport, league, calendar date and the
(unordered) canonical team names, with home and away swapped, get the same
fuzzy key, and merging them yields a single canonical game. -/
theorem C5_fuzzy_key_symmetry (g1 g2 : Game)
    (hsport : g1.sport = g2.sport) (hleague : g1.league = g2.league)
    (hdate : Int.fdiv g1.start_time_utc 86400 = Int.fdiv g2.start_time_utc 86400)
    (hhome : g1.home_team.canonical_name = g2.away_team.canonical_name)
    (haway : g1.away_team.canonical_name = g2.home_team.canonical_name) :
    get_fuzzy_game_key g1 = get_fuzzy_game_key g2 ∧
    (save_normalized_data [g1, g2]).games_to_save = [g1] := by
  have hkey : get_fuzzy_game_key g1 = get_fuzzy_game_key g2 := by
    unfold get_fuzzy_game_key
    rw [hsport, hleague, hdate, hhome, haway, sortedPair_comm]
  refine ⟨hkey, ?_⟩
  rw [save_games_eq_firstByKey]
  unfold firstByKey
  simp [fbkStep, lookupA, ← hkey]

/-- Witness for C5 at a concrete home/away-swapped pair. -/
theorem C5_fuzzy_key_symmetry_witness :
    get_fuzzy_game_key c5game1 = get_fuzzy_game_key c5game2 ∧
    (save_normalized_data [c5game1, c5game2]).games_to_save = [c5game1] :=
  C5_fuzzy_key_symmetry c5game1 c5game2 (by decide) (by decide) (by decide)
    (by decide) (by decide)

theorem find?_prefix_first {α : Type} (p : α → Bool) :
    ∀ (pre : List α) (a : α) (rest : List α),
      (∀ x ∈ pre, p x = false) → p a = true →
      (pre ++ a :: rest).find? p = some a := by
  intro pre
  induction pre with
  | nil =>
    intro a rest h hp
    simpa using List.find?_cons_of_pos rest hp
  | cons x xs ih =>
    intro a rest h hp
    rw [List.cons_append, List.find?_cons_of_neg _ (by simp [h x (by simp)])]
    exact ih a rest (fun y hy => h y (by simp [hy])) hp

theorem save_games_filter (gs : List Game) (k : FuzzyKey) :
    ((save_normalized_data gs).games_to_save.filter
      (fun g => decide (get_fuzzy_game_key g = k))) =
      (gs.find? (fun g => decide (get_fuzzy_game_key g = k))).toList := by
  rw [save_games_eq_firstByKey]
  rw [filter_map_snd_assoc get_fuzzy_game_key (firstByKey gs)
    (fbk_consistency gs [] (by simp)) (fbk_nodup_keys gs [] (by simp)) k]
  have h2 : lookupA k (firstByKey gs) =
      gs.find? (fun g => decide (get_fuzzy_game_key g = k)) :=
    fbk_lookup gs [] k
  rw [h2]

theorem mm_mem_snd (gs : List Game) (c : List (FuzzyKey × Game))
    (s : List Market) (m : Market) (hm : m ∈ s) :
    m ∈ (gs.foldl mmStep (c, s)).2 := by
  rw [mm_snd_append]
  exact List.mem_append_left _ hm

theorem save_markets_of_nodup (gs : List Game)
    (h : (inputMarketIds gs).Nodup) :
    (save_normalized_data gs).markets = mergedMarkets gs := by
  rw [save_markets_eq]
  refine winnersFrom_of_nodup _ _ (by simp) ?_
  have hids := mergedMarkets_ids gs ([], [])
  simp only [List.map_nil, List.nil_append] at hids
  show ((mergedMarkets gs).map Market.market_id).Nodup
  rw [mergedMarkets, hids]
  exact h

/-- C1: two games from different providers sharing sport, league, calendar
date and the unordered canonical team pair merge into exactly one
canonical game — the first one processed — and the merge output carries
both games' markets, the duplicate's re-parented to the canonical
`game_id`.  (Market ids are assumed globally distinct across the input, as
the id generator produces within a run.) -/
theorem C1_cross_provider_merge (pre rest : List Game) (g1 g2 : Game)
    (hg2 : g2 ∈ rest)
    (hpre : ∀ g ∈ pre, get_fuzzy_game_key g ≠ get_fuzzy_game_key g1)
    (hprov : g1.bookmaker ≠ g2.bookmaker)
    (hsport : g1.sport = g2.sport) (hleague : g1.league = g2.league)
    (hdate : Int.fdiv g1.start_time_utc 86400 = Int.fdiv g2.start_time_utc 86400)
    (hnames : sortedPair g1.home_team.canonical_name g1.away_team.canonical_name =
      sortedPair g2.home_team.canonical_name g2.away_team.canonical_name)
    (hids : (inputMarketIds (pre ++ g1 :: rest)).Nodup) :
    ((save_normalized_data (pre ++ g1 :: rest)).games_to_save.filter
      (fun g => decide (get_fuzzy_game_key g = get_fuzzy_game_key g1))) = [g1] ∧
    (∀ m ∈ g1.markets, m ∈ (save_normalized_data (pre ++ g1 :: rest)).markets) ∧
    (∀ m ∈ g2.markets,
      { m with game_id := g1.game_id } ∈
        (save_normalized_data (pre ++ g1 :: rest)).markets) := by
  have hkey : get_fuzzy_game_key g2 = get_fuzzy_game_key g1 := by
    unfold get_fuzzy_game_key
    rw [hsport, hleague, hdate, hnames]
  constructor
  · rw [save_games_filter]
    rw [find?_prefix_first _ pre g1 rest
      (fun x hx => by simp [hpre x hx]) (by simp)]
    rfl
  · rw [save_markets_of_nodup _ hids]
    obtain ⟨mid, post, hrest⟩ := List.append_of_mem hg2
    subst hrest
    -- unfold the stream where g1 and g2 are processed
    unfold mergedMarkets
    rw [List.foldl_append, List.foldl_cons]
    set A := pre.foldl mmStep (([], []) :
      List (FuzzyKey × Game) × List Market) with hA
    have hlkA : lookupA (get_fuzzy_game_key g1) A.1 = none := by
      rw [hA, mm_fst]
      have h2 : lookupA (get_fuzzy_game_key g1) (pre.foldl fbkStep []) =
          pre.find? (fun g => decide (get_fuzzy_game_key g =
            get_fuzzy_game_key g1)) :=
        fbk_lookup pre [] _
      rw [h2, List.find?_eq_none]
      intro g hg
      simp [hpre g hg]
    have hstep1 : mmStep A g1 =
        (A.1 ++ [(get_fuzzy_game_key g1, g1)], A.2 ++ g1.markets) := by
      have heta : A = (A.1, A.2) := rfl
      rw [heta]
      unfold mmStep
      rw [hlkA]
    rw [hstep1, List.foldl_append, List.foldl_cons]
    set B := mid.foldl mmStep
      (A.1 ++ [(get_fuzzy_game_key g1, g1)], A.2 ++ g1.markets) with hB
    have hlkB : lookupA (get_fuzzy_game_key g2) B.1 = some g1 := by
      rw [hkey, hB, mm_fst]
      have h2 : lookupA (get_fuzzy_game_key g1)
          (mid.foldl fbkStep (A.1 ++ [(get_fuzzy_game_key g1, g1)])) =
          match lookupA (get_fuzzy_game_key g1)
            (A.1 ++ [(get_fuzzy_game_key g1, g1)]) with
          | some v => some v
          | none => mid.find? (fun g => decide (get_fuzzy_game_key g =
              get_fuzzy_game_key g1)) :=
        fbk_lookup mid _ _
      rw [h2, lookupA_append, hlkA]
      simp [lookupA]
    have hstep2 : mmStep B g2 =
        (B.1, B.2 ++ g2.markets.map
          (fun m => { m with game_id := g1.game_id })) := by
      have heta : B = (B.1, B.2) := rfl
      rw [heta]
      unfold mmStep
      rw [hlkB]
    rw [hstep2]
    constructor
    · intro m hm
      refine mm_mem_snd post _ _ m ?_
      refine List.mem_append_left _ ?_
      rw [hB]
      refine mm_mem_snd mid _ _ m ?_
      exact List.mem_append_right _ hm
    · intro m hm
      refine mm_mem_snd post _ _ _ ?_
      exact List.mem_append_right _ (List.mem_map_of_mem _ hm)

/-- Witness for C1 at a concrete cross-provider duplicate pair. -/
theorem C1_cross_provider_merge_witness :
    ((save_normalized_data [c1game1, c1game2]).games_to_save.filter
      (fun g => decide (get_fuzzy_game_key g = get_fuzzy_game_key c1game1))) =
        [c1game1] ∧
    c1marketA ∈ (save_normalized_data [c1game1, c1game2]).markets ∧
    { c1marketB with game_id := c1game1.game_id } ∈
      (save_normalized_data [c1game1, c1game2]).markets := by
  have h := C1_cross_provider_merge [] [c1game2] c1game1 c1game2
    (by simp) (by intro g hg; simp at hg) (by decide) (by decide) (by decide)
    (by decide) (by decide) (by decide)
  exact ⟨h.1, h.2.1 c1marketA (by simp [c1game1]),
    h.2.2 c1marketB (by simp [c1game2])⟩

/-- The canonical games list of a merge output is stable: merging it again
returns it unchanged. -/
theorem fbk_of_nodup_keys :
    ∀ (gs : List Game) (acc : List (FuzzyKey × Game)),
      (∀ g ∈ gs, get_fuzzy_game_key g ∉ acc.map Prod.fst) →
      (gs.map get_fuzzy_game_key).Nodup →
      gs.foldl fbkStep acc = acc ++ gs.map (fun g => (get_fuzzy_game_key g, g)) := by
  intro gs
  induction gs with
  | nil => intro acc _ _; simp
  | cons g rest ih =>
    intro acc hfresh hnodup
    rw [List.foldl_cons]
    have hl : lookupA (get_fuzzy_game_key g) acc = none :=
      (lookupA_eq_none_iff _ _).mpr (hfresh g (by simp))
    have hstep : fbkStep acc g = acc ++ [(get_fuzzy_game_key g, g)] := by
      unfold fbkStep
      rw [hl]
      simp
    rw [List.map_cons, List.nodup_cons] at hnodup
    have hfresh' : ∀ g' ∈ rest, get_fuzzy_game_key g' ∉
        (acc ++ [(get_fuzzy_game_key g, g)]).map Prod.fst := by
      intro g' hg' hc
      rw [List.map_append] at hc
      rcases List.mem_append.mp hc with hc | hc
      · exact hfresh g' (List.mem_cons_of_mem _ hg') hc
      · simp at hc
        exact hnodup.1 (hc ▸ List.mem_map_of_mem get_fuzzy_game_key hg')
    rw [hstep, ih _ hfresh' hnodup.2]
    simp

theorem games_to_save_of_nodup (gs : List Game)
    (h : (gs.map get_fuzzy_game_key).Nodup) :
    (save_normalized_data gs).games_to_save = gs := by
  rw [save_games_eq_firstByKey]
  unfold firstByKey
  rw [fbk_of_nodup_keys gs [] (by simp) h]
  simp only [List.nil_append, List.map_map]
  rw [show (Prod.snd ∘ fun g : Game => (get_fuzzy_game_key g, g)) = id from rfl,
    List.map_id]

theorem games_to_save_keys_nodup (gs : List Game) :
    (((save_normalized_data gs).games_to_save).map get_fuzzy_game_key).Nodup := by
  rw [save_games_eq_firstByKey]
  have hcons := fbk_consistency gs [] (by simp)
  have hnd := fbk_nodup_keys gs [] (by simp)
  have : ((firstByKey gs).map Prod.snd).map get_fuzzy_game_key =
      (firstByKey gs).map Prod.fst := by
    rw [List.map_map]
    exact List.map_congr_left (fun p hp => hcons p hp)
  rw [this]
  exact hnd

/-- C2 (amended): re-merging the canonical games always reproduces the
same canonical games; and when the input has pairwise-distinct fuzzy keys
(in particular, no duplicates were collapsed), a second application
reproduces the whole output — games, markets, odds and teams. -/
theorem C2_merge_idempotence (gs : List Game) :
    ((save_normalized_data
      ((save_normalized_data gs).games_to_save)).games_to_save =
        (save_normalized_data gs).games_to_save) ∧
    ((gs.map get_fuzzy_game_key).Nodup →
      save_normalized_data ((save_normalized_data gs).games_to_save) =
        save_normalized_data gs) := by
  constructor
  · exact games_to_save_of_nodup _ (games_to_save_keys_nodup gs)
  · intro h
    rw [games_to_save_of_nodup gs h]

/-- Witness for C2 at a concrete duplicate-free input. -/
theorem C2_merge_idempotence_witness :
    save_normalized_data
      ((save_normalized_data [c5game1]).games_to_save) =
        save_normalized_data [c5game1] :=
  (C2_merge_idempotence [c5game1]).2 (by decide)

/-- Counterexample to C2 as stated: with a duplicate game contributing a
new market, re-running the merge on the canonical games loses that market
(and its odds), so the market set is not preserved. -/
theorem C2_counterexample :
    (save_normalized_data
      ((save_normalized_data [c2gameA, c2gameB]).games_to_save)).markets ≠
      (save_normalized_data [c2gameA, c2gameB]).markets := by
  with_unfolding_all decide

/-! ## Claim C6 — odds freshness -/

/-- C6 (amended): among the odds records that reach the shared collection
(`all_odds_raw`), the merge keeps exactly one record per
(market_id, bookmaker, side) key — one with the maximal
`timestamp_collected`.  Records of a market object whose `market_id` was
already processed never reach the collection (see
`C6_counterexample`). -/
theorem C6_odds_freshness (gs : List Game) (k : OddsKey)
    (hne : (collectedOdds gs).filter (fun o => decide (oddsKeyOf o = k)) ≠ []) :
    ∃ o : Odds,
      ((save_normalized_data gs).unique_latest_odds.filter
        (fun o' => decide (oddsKeyOf o' = k))) = [o] ∧
      o ∈ (collectedOdds gs).filter (fun o' => decide (oddsKeyOf o' = k)) ∧
      ∀ o' ∈ (collectedOdds gs).filter (fun o' => decide (oddsKeyOf o' = k)),
        o'.timestamp_collected ≤ o.timestamp_collected := by
  rw [save_odds_eq]
  rw [filter_map_snd_assoc oddsKeyOf ((collectedOdds gs).foldl latestFold [])
    (latestMap_consistency _ [] (by simp)) (latestMap_nodup _ [] (by simp)) k]
  have hrun : lookupA k ((collectedOdds gs).foldl latestFold []) =
      runningLatest none
        ((collectedOdds gs).filter (fun o => decide (oddsKeyOf o = k))) :=
    latest_lookup_run (collectedOdds gs) [] k
  have hsome := runningLatest_isSome _ hne
  obtain ⟨o, ho⟩ := Option.isSome_iff_exists.mp hsome
  have hspec := runningLatest_spec _ none o ho
  refine ⟨o, ?_, ?_, hspec.2.1⟩
  · rw [hrun, ho]
    rfl
  · rcases hspec.1 with hm | hm
    · exact hm
    · exact absurd hm (by simp)

/-- Counterexample to C6 as stated: the input carries two odds records
with the same (market_id, bookmaker, side) and a fresher timestamp on the
second, but the second lives in a market object whose `market_id` was
already processed, so the merge keeps only the earlier record. -/
theorem C6_counterexample :
    oddsKeyOf c6odds2 = oddsKeyOf c6odds1 ∧
    c6odds1.timestamp_collected < c6odds2.timestamp_collected ∧
    c6odds1 ∈ (c6gameA.markets.map Market.odds).flatten ∧
    c6odds2 ∈ (c6gameB.markets.map Market.odds).flatten ∧
    (save_normalized_data [c6gameA, c6gameB]).unique_latest_odds = [c6odds1] := by
  with_unfolding_all decide

/-- Witness for C6: both records in the same market object; exactly one
survivor per key. -/
theorem C6_odds_freshness_witness :
    ((save_normalized_data [c6wgame]).unique_latest_odds.filter
      (fun o' => decide (oddsKeyOf o' = oddsKeyOf c6odds1))).length = 1 := by
  obtain ⟨o, h1, h2, h3⟩ := C6_odds_freshness [c6wgame] (oddsKeyOf c6odds1)
    (by with_unfolding_all decide)
  rw [h1]
  rfl

/-! ## Claims C9, C3, C4 — the adapters and the orchestrator -/

theorem oddsPostInit_decimal (o : Odds) :
    (oddsPostInit o).decimal_odds = o.decimal_odds := by
  unfold oddsPostInit
  split_ifs <;> rfl

theorem mkOdds_none_iff (market_id : String) (bk : Bookmaker)
    (side : MarketSide) (points line : Option ℚ) (d : ℚ)
    (am : Option ℤ) (ts : ℤ) :
    mkOdds market_id bk side points line d am ts = none ↔ d ≤ 1 := by
  unfold mkOdds
  split_ifs with h
  · simp [not_le.mpr h]
  · simp [not_lt.mp h]

theorem mkOdds_some_valid {market_id : String} {bk : Bookmaker}
    {side : MarketSide} {points line : Option ℚ} {d : ℚ} {am : Option ℤ}
    {ts : ℤ} {o : Odds}
    (h : mkOdds market_id bk side points line d am ts = some o) :
    1 < o.decimal_odds := by
  unfold mkOdds at h
  split_ifs at h with hd
  · cases h
    rw [oddsPostInit_decimal]
    exact hd

theorem buildCrabOdds_cons (now : ℤ) (market_id : String) (mt : MarketType)
    (side : MarketSide) (price : ℚ) (raw_label : String) (oline : Option ℚ)
    (rest : List (MarketSide × ℚ × String × Option ℚ)) :
    buildCrabOdds now market_id mt ((side, price, raw_label, oline) :: rest) =
      match mkOdds market_id .CRAB_SPORTS side
          (if mt = .SPREAD then extractPointsFromOutcomeLabel (some raw_label) else none)
          (if mt = .TOTAL then extractLineFromLabel (some raw_label) else none)
          price none now with
      | none => none
      | some o => (buildCrabOdds now market_id mt rest).map (o :: .) := rfl

theorem seqConcat_nil : seqConcat ([] : List (Option (List Game))) = some [] := rfl

theorem seqConcat_cons (r : Option (List Game))
    (rest : List (Option (List Game))) :
    seqConcat (r :: rest) =
      match r, seqConcat rest with
      | some gs, some acc => some (gs ++ acc)
      | _, _ => none := rfl
theorem buildCrabOdds_abort (now : ℤ) (market_id : String) (mt : MarketType) :
    ∀ outs : List (MarketSide × ℚ × String × Option ℚ),
      (∃ t ∈ outs, t.2.1 ≤ 1) →
      buildCrabOdds now market_id mt outs = none := by
  intro outs
  induction outs with
  | nil => intro h; simp at h
  | cons t rest ih =>
    intro h
    obtain ⟨side, price, raw_label, oline⟩ := t
    rw [buildCrabOdds_cons]
    rcases h with ⟨t', ht', hle⟩
    rcases List.mem_cons.mp ht' with ht' | ht'
    · subst ht'
      simp only at hle
      cases hmk : mkOdds market_id .CRAB_SPORTS side
          (if mt = .SPREAD then extractPointsFromOutcomeLabel (some raw_label) else none)
          (if mt = .TOTAL then extractLineFromLabel (some raw_label) else none)
          price none now with
      | none => rfl
      | some o =>
        exact absurd hle (not_le.mpr (by
          unfold mkOdds at hmk
          split_ifs at hmk <;> assumption))
    · rw [ih ⟨t', ht', hle⟩]
      cases mkOdds market_id .CRAB_SPORTS side
          (if mt = .SPREAD then extractPointsFromOutcomeLabel (some raw_label) else none)
          (if mt = .TOTAL then extractLineFromLabel (some raw_label) else none)
          price none now <;> rfl

theorem buildCrabOdds_valid (now : ℤ) (market_id : String) (mt : MarketType) :
    ∀ (outs : List (MarketSide × ℚ × String × Option ℚ)) (odds : List Odds),
      buildCrabOdds now market_id mt outs = some odds →
      ∀ o ∈ odds, 1 < o.decimal_odds := by
  intro outs
  induction outs with
  | nil =>
    intro odds h o ho
    unfold buildCrabOdds at h
    cases h
    simp at ho
  | cons t rest ih =>
    intro odds h o ho
    obtain ⟨side, price, raw_label, oline⟩ := t
    rw [buildCrabOdds_cons] at h
    cases hmk : mkOdds market_id .CRAB_SPORTS side
        (if mt = .SPREAD then extractPointsFromOutcomeLabel (some raw_label) else none)
        (if mt = .TOTAL then extractLineFromLabel (some raw_label) else none)
        price none now with
    | none => rw [hmk] at h; cases h
    | some o1 =>
      rw [hmk] at h
      cases hrest : buildCrabOdds now market_id mt rest with
      | none => rw [hrest] at h; cases h
      | some odds1 =>
        rw [hrest] at h
        simp only [Option.map_some] at h
        cases h
        rcases List.mem_cons.mp ho with ho | ho
        · subst ho
          exact mkOdds_some_valid hmk
        · exact ih odds1 hrest o ho

theorem buildPinnOdds_valid (now : ℤ) (market_id : String) :
    ∀ (outs : List OddsTuple) (odds : List Odds),
      buildPinnOdds now market_id outs = some odds →
      ∀ o ∈ odds, 1 < o.decimal_odds := by
  intro outs
  induction outs with
  | nil =>
    intro odds h o ho
    unfold buildPinnOdds at h
    cases h
    simp at ho
  | cons t rest ih =>
    intro odds h o ho
    obtain ⟨side, price, pv, lv⟩ := t
    unfold buildPinnOdds at h
    cases hmk : mkOdds market_id .PINNACLE side pv lv price none now with
    | none => rw [hmk] at h; cases h
    | some o1 =>
      rw [hmk] at h
      cases hrest : buildPinnOdds now market_id rest with
      | none => rw [hrest] at h; cases h
      | some odds1 =>
        rw [hrest] at h
        simp only [Option.map_some] at h
        cases h
        rcases List.mem_cons.mp ho with ho | ho
        · subst ho
          exact mkOdds_some_valid hmk
        · exact ih odds1 hrest o ho
theorem finishGame_markets {mk : List Market → Game} {ms : List Market}
    {g : Game} (h : finishGame mk ms = some g) (hmk : (mk ms).markets = ms) :
    g.markets = ms ∧ ms ≠ [] := by
  unfold finishGame at h
  split at h
  · cases h
  · cases h
    rename_i hne
    exact ⟨hmk, by simpa using hne⟩

set_option maxHeartbeats 1000000 in
theorem crabProcessContainer_inv (now : ℤ) (gid hn an : String) (c : Json)
    (m : Market) (h : crabProcessContainer now gid hn an c = some m) :
    m.odds ≠ [] ∧ ∀ o ∈ m.odds, 1 < o.decimal_odds := by
  unfold crabProcessContainer at h
  repeat' (first | (split at h) | (simp only [] at h))
  all_goals cases h
  all_goals rename_i hodds hne hcond
  all_goals exact ⟨by simpa using hne, buildCrabOdds_valid now _ _ _ _ hodds⟩
theorem pinnFinishMarket_inv (now : ℤ) (gid : String) (mt : MarketType)
    (ml : Option ℚ) (rn : String) (outs : List OddsTuple) (m : Market)
    (h : pinnFinishMarket now gid mt ml rn outs = some m) :
    m.odds ≠ [] ∧ ∀ o ∈ m.odds, 1 < o.decimal_odds := by
  unfold pinnFinishMarket at h
  repeat' (first | (split at h) | (simp only [] at h))
  all_goals cases h
  all_goals rename_i hodds hne
  all_goals exact ⟨by simpa using hne, buildPinnOdds_valid now _ _ _ hodds⟩

set_option maxHeartbeats 1000000 in
theorem pinnProcessMarket_inv (now : ℤ) (gid : String) (rm : Json)
    (m : Market) (h : pinnProcessMarket now gid rm = some m) :
    m.odds ≠ [] ∧ ∀ o ∈ m.odds, 1 < o.decimal_odds := by
  unfold pinnProcessMarket at h
  repeat' (first | (split at h) | (simp only [] at h))
  all_goals first
    | (cases h)
    | (exact pinnFinishMarket_inv _ _ _ _ _ _ _ h)

set_option maxHeartbeats 1000000 in
theorem crabProcessEvent_inv (now : ℤ) (ev : Json) (g : Game)
    (h : crabProcessEvent now ev = some g) :
    g.markets ≠ [] ∧ ∀ m ∈ g.markets, m.odds ≠ [] := by
  unfold crabProcessEvent at h
  repeat' (first | (split at h) | (simp only [] at h))
  all_goals try (cases h)
  all_goals (
    obtain ⟨hm, hne⟩ := finishGame_markets h rfl
    refine ⟨by rw [hm]; exact hne, ?_⟩
    intro m hmem
    rw [hm] at hmem
    simp only [List.mem_filterMap] at hmem
    obtain ⟨c, _, hc⟩ := hmem
    exact (crabProcessContainer_inv now _ _ _ c m hc).1)

set_option maxHeartbeats 1000000 in
theorem pinnProcessMatchup_inv (now : ℤ) (mbm : List (Json × List Json))
    (mu : Json) (g : Game) (h : pinnProcessMatchup now mbm mu = some g) :
    g.markets ≠ [] ∧ ∀ m ∈ g.markets, m.odds ≠ [] := by
  unfold pinnProcessMatchup at h
  repeat' (first | (split at h) | (simp only [] at h))
  all_goals try (cases h)
  all_goals (
    obtain ⟨hm, hne⟩ := finishGame_markets h rfl
    refine ⟨by rw [hm]; exact hne, ?_⟩
    intro m hmem
    rw [hm] at hmem
    simp only [List.mem_filterMap] at hmem
    obtain ⟨rm, _, hrm⟩ := hmem
    exact (pinnProcessMarket_inv now _ rm m hrm).1)

theorem crab_adapter_inv (now : ℤ) (doc : Json) (gs : List Game)
    (h : normalize_crabsports_data now doc = some gs) :
    ∀ g ∈ gs, g.markets ≠ [] ∧ ∀ m ∈ g.markets, m.odds ≠ [] := by
  unfold normalize_crabsports_data at h
  split at h
  · cases h
    intro g hg
    simp only [List.mem_filterMap] at hg
    obtain ⟨ev, _, hev⟩ := hg
    exact crabProcessEvent_inv now ev g hev
  · cases h

theorem pinn_adapter_inv (now : ℤ) (doc : Json) (gs : List Game)
    (h : normalize_pinnacle_data now doc = some gs) :
    ∀ g ∈ gs, g.markets ≠ [] ∧ ∀ m ∈ g.markets, m.odds ≠ [] := by
  unfold normalize_pinnacle_data at h
  repeat' (first | (split at h) | (simp only [] at h))
  all_goals cases h
  all_goals intro g hg
  all_goals (
    first
      | (simp only [List.not_mem_nil] at hg)
      | (simp only [List.mem_filterMap] at hg
         obtain ⟨mu, _, hmu⟩ := hg
         exact pinnProcessMatchup_inv now _ mu g hmu))
theorem seqConcat_mem (l : List (Option (List Game))) (gs : List Game)
    (h : seqConcat l = some gs) :
    ∀ g ∈ gs, ∃ li ∈ l, ∃ gsi, li = some gsi ∧ g ∈ gsi := by
  induction l generalizing gs with
  | nil =>
    rw [seqConcat_nil] at h
    cases h
    intro g hg
    simp at hg
  | cons x rest ih =>
    rw [seqConcat_cons] at h
    cases hx : x with
    | none => rw [hx] at h; cases hrec : seqConcat rest <;> rw [hrec] at h <;> cases h
    | some gs1 =>
      rw [hx] at h
      cases hrec : seqConcat rest with
      | none => rw [hrec] at h; cases h
      | some gs2 =>
        rw [hrec] at h
        cases h
        intro g hg
        rcases List.mem_append.mp hg with hg | hg
        · exact ⟨some gs1, List.mem_cons_self _ _, gs1, rfl, hg⟩
        · obtain ⟨li, hli, gsi, hgsi, hmem⟩ := ih gs2 hrec g hg
          exact ⟨li, by simp [hli], gsi, hgsi, hmem⟩

theorem normStep_append (now : ℤ) (acc : List Game)
    (e : Bookmaker × List Json) :
    normStep now acc e = acc ++ normStep now [] e := by
  unfold normStep
  split_ifs
  · simp
  · cases (match e.1 with
      | Bookmaker.CRAB_SPORTS => seqConcat (e.2.map (normalize_crabsports_data now))
      | Bookmaker.PINNACLE => seqConcat (e.2.map (normalize_pinnacle_data now))
      | _ => some ([] : List Game)) <;> simp

theorem normalize_acc (now : ℤ) (raw : List (Bookmaker × List Json)) :
    ∀ acc : List Game,
      raw.foldl (normStep now) acc = acc ++ raw.foldl (normStep now) [] := by
  induction raw with
  | nil => intro acc; simp
  | cons e rest ih =>
    intro acc
    rw [List.foldl_cons, List.foldl_cons, normStep_append, ih,
      ih (normStep now [] e), List.append_assoc]

theorem normStep_nil_mem (now : ℤ) (e : Bookmaker × List Json) (g : Game)
    (hg : g ∈ normStep now [] e) :
    (∃ d ∈ e.2, ∃ gs, normalize_crabsports_data now d = some gs ∧ g ∈ gs) ∨
    (∃ d ∈ e.2, ∃ gs, normalize_pinnacle_data now d = some gs ∧ g ∈ gs) := by
  unfold normStep at hg
  split_ifs at hg
  · simp at hg
  · revert hg
    cases e1 : e.1 <;> simp only [] <;> intro hg
    · cases hc : seqConcat (e.2.map (normalize_pinnacle_data now)) with
      | none => rw [hc] at hg; simp at hg
      | some gsp =>
        rw [hc] at hg
        simp only [List.nil_append] at hg
        obtain ⟨li, hli, gsi, hgsi, hmem⟩ := seqConcat_mem _ _ hc g hg
        obtain ⟨d, hd2, hd⟩ := List.mem_map.mp hli
        exact Or.inr ⟨d, hd2, gsi, hd ▸ hgsi, hmem⟩
    · cases hc : seqConcat (e.2.map (normalize_crabsports_data now)) with
      | none => rw [hc] at hg; simp at hg
      | some gsc =>
        rw [hc] at hg
        simp only [List.nil_append] at hg
        obtain ⟨li, hli, gsi, hgsi, hmem⟩ := seqConcat_mem _ _ hc g hg
        obtain ⟨d, hd2, hd⟩ := List.mem_map.mp hli
        exact Or.inl ⟨d, hd2, gsi, hd ▸ hgsi, hmem⟩
    all_goals simp at hg

/-- C9: every game either adapter emits carries a non-empty `markets`
list, every market a non-empty `odds` list; consequently so does every
game `Normalizer.normalize` returns. -/
theorem C9_nonempty_invariant :
    (∀ (now : ℤ) (doc : Json) (gs : List Game),
      normalize_crabsports_data now doc = some gs →
      ∀ g ∈ gs, g.markets ≠ [] ∧ ∀ m ∈ g.markets, m.odds ≠ []) ∧
    (∀ (now : ℤ) (doc : Json) (gs : List Game),
      normalize_pinnacle_data now doc = some gs →
      ∀ g ∈ gs, g.markets ≠ [] ∧ ∀ m ∈ g.markets, m.odds ≠ []) ∧
    (∀ (now : ℤ) (raw : List (Bookmaker × List Json)),
      ∀ g ∈ Normalizer.normalize now raw,
      g.markets ≠ [] ∧ ∀ m ∈ g.markets, m.odds ≠ []) := by
  refine ⟨crab_adapter_inv, pinn_adapter_inv, ?_⟩
  intro now raw
  induction raw with
  | nil => intro g hg; simp [Normalizer.normalize] at hg
  | cons e rest ih =>
    intro g hg
    unfold Normalizer.normalize at hg
    rw [List.foldl_cons, normalize_acc] at hg
    rcases List.mem_append.mp hg with hg | hg
    · rcases normStep_nil_mem now e g hg with ⟨d, _, gs, hgs, hmem⟩ | ⟨d, _, gs, hgs, hmem⟩
      · exact crab_adapter_inv now d gs hgs g hmem
      · exact pinn_adapter_inv now d gs hgs g hmem
    · exact ih g hg
theorem C9_nonempty_invariant_witness :
    Normalizer.normalize 100 [(Bookmaker.CRAB_SPORTS, [c9doc])] = [c9game] ∧
    c9game.markets ≠ [] :=
  ⟨by decide!,
   (C9_nonempty_invariant.2.2 100 [(Bookmaker.CRAB_SPORTS, [c9doc])] c9game
     (by decide!)).1⟩
theorem seqConcat_none {l : List (Option (List Game))} (h : none ∈ l) :
    seqConcat l = none := by
  induction l with
  | nil => simp at h
  | cons x rest ih =>
    rw [seqConcat_cons]
    rcases List.mem_cons.mp h with h | h
    · rw [← h]
    · rw [ih h]
      cases x <;> rfl

/-- C3 (amended): a decimal price ≤ 1 always fails `Odds` construction
with a validation error; but the Crab Sports adapter does not skip just
that outcome — the error aborts the whole enclosing market container, so
every market the adapter emits contains only odds with price > 1. -/
theorem C3_validation_abort :
    (∀ (market_id : String) (bk : Bookmaker) (side : MarketSide)
       (points line : Option ℚ) (d : ℚ) (am : Option ℤ) (ts : ℤ),
       mkOdds market_id bk side points line d am ts = none ↔ d ≤ 1) ∧
    (∀ (now : ℤ) (market_id : String) (mt : MarketType)
       (outs : List (MarketSide × ℚ × String × Option ℚ)),
       (∃ t ∈ outs, t.2.1 ≤ 1) → buildCrabOdds now market_id mt outs = none) ∧
    (∀ (now : ℤ) (gid hn an : String) (c : Json) (m : Market),
       crabProcessContainer now gid hn an c = some m →
       ∀ o ∈ m.odds, 1 < o.decimal_odds) :=
  ⟨mkOdds_none_iff, buildCrabOdds_abort,
   fun now gid hn an c m h => (crabProcessContainer_inv now gid hn an c m h).2⟩

theorem C3_validation_abort_witness :
    mkOdds "mid" Bookmaker.CRAB_SPORTS MarketSide.AWAY none none
        (mkRat 19 20) none 100 = none ∧
    buildCrabOdds 100 "mid" MarketType.MONEYLINE
      [(MarketSide.HOME, mkRat 191 100, "Lakers", none),
       (MarketSide.AWAY, mkRat 19 20, "Celtics", none)] = none :=
  ⟨(C3_validation_abort.1 "mid" Bookmaker.CRAB_SPORTS MarketSide.AWAY none none
      (mkRat 19 20) none 100).mpr (by decide!),
   C3_validation_abort.2.1 100 "mid" MarketType.MONEYLINE
     [(MarketSide.HOME, mkRat 191 100, "Lakers", none),
      (MarketSide.AWAY, mkRat 19 20, "Celtics", none)]
     ⟨(MarketSide.AWAY, mkRat 19 20, "Celtics", none),
      List.mem_cons_of_mem _ (List.mem_cons_self _ _), by decide!⟩⟩

/-- Counterexample to C3 as stated: `c3doc` holds one event with a
MONEYLINE market (valid sibling Lakers 1.91, invalid Celtics 0.95) and a
TOTAL market.  The adapter drops the whole MONEYLINE market — the valid
sibling outcome is not retained and the market does not survive — while
the TOTAL market is emitted unchanged. -/
theorem C3_counterexample :
    normalize_crabsports_data 100 c3doc = some [c3game] ∧
    c3game.markets.map Market.market_type = [MarketType.TOTAL] := by
  decide!

/-- C4 (amended): providers are isolated from each other — `normalize`
distributes over concatenation of the provider list — but raw responses
of one provider are not: one failing response (the adapter raising,
modelled by `none`) discards the provider's entire contribution,
including every game of its other, well-formed responses. -/
theorem C4_failure_isolation :
    (∀ (now : ℤ) (xs ys : List (Bookmaker × List Json)),
       Normalizer.normalize now (xs ++ ys) =
         Normalizer.normalize now xs ++ Normalizer.normalize now ys) ∧
    (∀ (now : ℤ) (docs : List Json) (d : Json), d ∈ docs →
       normalize_crabsports_data now d = none →
       normStep now [] (Bookmaker.CRAB_SPORTS, docs) = []) := by
  constructor
  · intro now xs ys
    unfold Normalizer.normalize
    rw [List.foldl_append, normalize_acc]
  · intro now docs d hmem hfail
    have hnone : seqConcat (docs.map (normalize_crabsports_data now)) = none :=
      seqConcat_none (List.mem_map.mpr ⟨d, hmem, hfail⟩)
    unfold normStep
    split_ifs with hemp
    · rfl
    · dsimp only
      rw [hnone]

theorem C4_failure_isolation_witness :
    Normalizer.normalize 100
        ([(Bookmaker.PINNACLE, [Json.obj []])] ++
          [(Bookmaker.CRAB_SPORTS, [c4goodDoc])]) =
      Normalizer.normalize 100 [(Bookmaker.PINNACLE, [Json.obj []])] ++
        Normalizer.normalize 100 [(Bookmaker.CRAB_SPORTS, [c4goodDoc])] ∧
    normStep 100 [] (Bookmaker.CRAB_SPORTS, [c4goodDoc, Json.arr []]) = [] :=
  ⟨C4_failure_isolation.1 100 [(Bookmaker.PINNACLE, [Json.obj []])]
      [(Bookmaker.CRAB_SPORTS, [c4goodDoc])],
   C4_failure_isolation.2 100 [c4goodDoc, Json.arr []] (Json.arr [])
     (List.mem_cons_of_mem _ (List.mem_cons_self _ _)) (by decide!)⟩

/-- Counterexample to C4 as stated: with one well-formed Crab Sports
response (normalizing to `c4game` alone) and one malformed response (a
JSON array, on which the adapter raises), the provider contributes
nothing at all — the well-formed response's game disappears with it. -/
theorem C4_counterexample :
    Normalizer.normalize 100 [(Bookmaker.CRAB_SPORTS, [c4goodDoc, Json.arr []])] = [] ∧
    Normalizer.normalize 100 [(Bookmaker.CRAB_SPORTS, [c4goodDoc])] = [c4game] := by
  decide!

end EvBetting
